import Mathlib

/-!
# Verification of the `rdtw` dynamic time warping package

A shallow embedding of `src/rdtw/dtw.py` (the `dtw` driver and
`_canonicalizeWindowFunction`).  The modules it imports
(`stepPattern.py`, `globalCostMatrix.py`, `backtrack.py`, `window.py`) are not
part of the sources; they are modelled from the specification and are marked
`Modelled from the spec:` in their doc comments.

Conventions of the embedding:
* numbers are `ℚ` (the float values that can arise here are exact results of
  `+ * /` on the inputs); a NaN / "unreached" float is `Option.none`, so
  matrix cells have type `Option ℚ` and the Python test `v != v` is `v = none`;
* a Python exception is the `Except.error` branch of `Except PyErr _`;
* a deleted / never-assigned object attribute is an `Option.none` field, and
  reading it raises `PyErr.attributeError`;
* matrices are rectangular `List (List _)` values, row major.
-/

/-- The Python exceptions the embedded code can raise.  `configError` stands
for the error raised by the `error` helper that `dtw.py` takes from its
(missing) sibling modules; the spec classifies those as configuration
errors. -/
inductive PyErr where
  | valueError (msg : String)
  | nameError (msg : String)
  | attributeError (msg : String)
  | indexError (msg : String)
  | configError (msg : String)
  deriving DecidableEq, Repr

instance {ε α : Type} [DecidableEq ε] [DecidableEq α] : DecidableEq (Except ε α) := fun a b =>
  match a, b with
  | .error u, .error v =>
    if h : u = v then .isTrue (by rw [h]) else .isFalse (by simp [h])
  | .ok u, .ok v =>
    if h : u = v then .isTrue (by rw [h]) else .isFalse (by simp [h])
  | .error _, .ok _ => .isFalse (by simp)
  | .ok _, .error _ => .isFalse (by simp)

/-- Modelled from the spec: the error taxonomy of §7.  A `ConfigurationError`
is either an `error`-helper failure (`configError`) or the explicit
`ValueError` raised for a non-2D local cost matrix. -/
def PyErr.isConfigurationError : PyErr → Bool
  | .configError _ => true
  | .valueError m => m = "A 2D local distance matrix was expected"
  | _ => false

/-- Keyword arguments forwarded to a window function (`window_args`). -/
structure WindowArgs where
  window_size : Option ℕ := none
  deriving DecidableEq, Repr

/-- A window predicate: `(i, j, query_size, reference_size, args) ↦ admissible`. -/
abbrev WFun := ℕ → ℕ → ℕ → ℕ → WindowArgs → Bool

/-- Modelled from the spec: `noWindow` from the missing `window.py` — always
admissible. -/
def noWindow : WFun := fun _ _ _ _ _ => true

/-- Modelled from the spec: `sakoeChibaWindow` from the missing `window.py` —
a band `|i - j| ≤ window_size` around the diagonal. -/
def sakoeChibaWindow : WFun := fun i j _ _ args =>
  decide (max i j - min i j ≤ args.window_size.getD 0)

/-- Modelled from the spec: `itakuraWindow` from the missing `window.py` —
the Itakura parallelogram constraint (no extra parameters). -/
def itakuraWindow : WFun := fun i j n m _ =>
  decide (j + 1 < 2 * i + 2 ∧ i + 1 ≤ 2 * j + 2 ∧
    n ≤ i + 2 * (m - j) ∧ m + 2 * i < j + 2 * n + 1)

/-- Modelled from the spec: `slantedBandWindow` from the missing `window.py` —
a band of width `window_size` around the slanted diagonal `j = i·m/n`. -/
def slantedBandWindow : WFun := fun i j n m args =>
  decide ((((j : ℤ) * n - i * m).natAbs) ≤ (args.window_size.getD 0) * n)

/-- The `window_type` argument of `dtw`: `None`, a name string, or a
callable. -/
inductive WindowType where
  | none
  | name (s : String)
  | callable (f : WFun)

/-- `_canonicalizeWindowFunction` from `dtw.py` (lines 241-253).  A callable
is returned as is and `None` maps to `noWindow`.  A name string reaches the
dictionary lookup `.get(w, lambda: error("Window function undefined"))`, and
evaluating the argument `w` — a variable that does not exist in the function
(the parameter is `window_type`) — raises `NameError` before the lookup or
the fallback can run.  Hence every name string, known or unknown, raises
`NameError`. -/
def _canonicalizeWindowFunction (window_type : WindowType) : Except PyErr WFun :=
  match window_type with
  | .callable f => .ok f
  | .none => .ok noWindow
  | .name _ => .error (.nameError "name w is not defined")

/-- A raw `dtw` input: a 1-D series or a 2-D array (rows are time steps). -/
inductive NDArr where
  | one (v : List ℚ)
  | two (m : List (List ℚ))
  deriving DecidableEq, Repr

/-- `numpy.atleast_2d`: a 1-D array of length `k` becomes a `1 × k` matrix. -/
def atleast_2d : NDArr → List (List ℚ)
  | .one v => [v]
  | .two m => m

/-- `numpy` matrix transposition (`x.T`) on rectangular matrices. -/
def npT (m : List (List ℚ)) : List (List ℚ) :=
  (List.range (m.headD []).length).map (fun j => m.map (fun r => r.getD j 0))

/-- Lines 143-148 of `dtw.py` applied to one of the two series: make it 2-D,
then transpose iff the first axis has length 1. -/
def coerceSeries (a : NDArr) : List (List ℚ) :=
  let t := atleast_2d a
  if t.length = 1 then npT t else t

/-- `scipy.spatial.distance.cdist`: the pairwise distance matrix between the
rows of `X` and the rows of `Y`.  The metric chosen by the `dist_method`
string is an external collaborator; the embedding takes it as the function
`f` directly. -/
def cdist (X Y : List (List ℚ)) (f : List ℚ → List ℚ → ℚ) : List (List ℚ) :=
  X.map (fun xr => Y.map (fun yr => f xr yr))

/-- Lines 137-149 of `dtw.py`: resolve the inputs into the local cost matrix,
plus the coerced query/reference when `y` was supplied. -/
def resolveInput (x : NDArr) (y : Option NDArr) (f : List ℚ → List ℚ → ℚ) :
    Except PyErr (List (List ℚ) × Option (List (List ℚ)) × Option (List (List ℚ))) :=
  match y with
  | .none =>
    match x with
    | .two m => .ok (m, none, none)
    | .one _ => .error (.valueError "A 2D local distance matrix was expected")
  | .some yv =>
    let xc := coerceSeries x
    let yc := coerceSeries yv
    .ok (cdist xc yc f, some xc, some yc)

/-- Modelled from the spec: one term of a step-pattern row — either a
coefficient multiplying the local cost at offset `(dr, dc)` from the target
cell, or a constant addend. -/
structure SPTerm where
  dr : ℕ
  dc : ℕ
  mul : Bool
  coeff : ℚ
  deriving DecidableEq, Repr

/-- Modelled from the spec: one pattern-id of a step pattern — the
predecessor offset (the first, farthest row of the pattern's table) and the
ordered weighted terms accumulated on top of the predecessor's cumulative
cost. -/
structure SPat where
  pdr : ℕ
  pdc : ℕ
  terms : List SPTerm
  deriving DecidableEq, Repr

/-- Modelled from the spec: a step pattern — the ordered pattern-ids and the
normalization hint (one of `"NA"`, `"N"`, `"M"`, `"N+M"`). -/
structure StepPattern where
  pats : List SPat
  hint : String
  deriving DecidableEq, Repr

/-- Modelled from the spec: the §3 step-pattern invariant together with the
offset convention of §4.3/§4.4 (offsets are relative to the target cell, the
first row of a pattern-id is the farthest and is the predecessor, the other
rows lie along the pattern's own intra-pattern steps). -/
def StepPattern.WF (sp : StepPattern) : Prop :=
  ∀ pat ∈ sp.pats, 1 ≤ pat.pdr + pat.pdc ∧
    ∀ t ∈ pat.terms, ¬(t.dr = 0 ∧ t.dc = 0) →
      t.dr ≤ pat.pdr ∧ t.dc ≤ pat.pdc ∧ (pat.pdr = 0 ∨ t.dr < pat.pdr)

instance (sp : StepPattern) : Decidable sp.WF := by
  unfold StepPattern.WF; infer_instance

/-- Modelled from the spec: the `symmetric1` constant — unit-weight moves
`(1,1)`, `(0,1)`, `(1,0)`; the spec fixes its hint to `"N"`. -/
def symmetric1 : StepPattern :=
  ⟨[⟨1, 1, [⟨0, 0, true, 1⟩]⟩, ⟨0, 1, [⟨0, 0, true, 1⟩]⟩, ⟨1, 0, [⟨0, 0, true, 1⟩]⟩], "N"⟩

/-- Modelled from the spec: the `symmetric2` constant — diagonal weight 2,
hint `"N+M"`. -/
def symmetric2 : StepPattern :=
  ⟨[⟨1, 1, [⟨0, 0, true, 2⟩]⟩, ⟨0, 1, [⟨0, 0, true, 1⟩]⟩, ⟨1, 0, [⟨0, 0, true, 1⟩]⟩], "N+M"⟩

/-- Modelled from the spec: the `asymmetric` constant — row always advances
by one, column by 0, 1 or 2; hint `"N"`. -/
def asymmetric : StepPattern :=
  ⟨[⟨1, 0, [⟨0, 0, true, 1⟩]⟩, ⟨1, 1, [⟨0, 0, true, 1⟩]⟩, ⟨1, 2, [⟨0, 0, true, 1⟩]⟩], "N"⟩

/-- Cumulative cost matrices as total functions (sampled into lists at the
engine's boundary); `none` is the NaN / unreached sentinel. -/
abbrev CMf := ℕ → ℕ → Option ℚ

/-- Direction matrices as total functions; `none` marks seed and unreached
cells. -/
abbrev DMf := ℕ → ℕ → Option ℕ

/-- The engine's output: the cumulative cost matrix and the parallel
direction matrix, both `n × m` lists. -/
structure GCMOut where
  costMatrix : List (List (Option ℚ))
  directionMatrix : List (List (Option ℕ))
  deriving DecidableEq, Repr

/-- Modelled from the spec: the candidate cumulative cost of reaching
`(i, j)` through one pattern-id — the predecessor's settled cost plus the
pattern's weighted local costs and constant addends; `none` when the
predecessor is out of range or unreached. -/
def candidateCost (lm : List (List ℚ)) (cm : CMf) (pat : SPat) (i j : ℕ) : Option ℚ :=
  if pat.pdr ≤ i ∧ pat.pdc ≤ j then
    match cm (i - pat.pdr) (j - pat.pdc) with
    | none => none
    | some base =>
      pat.terms.foldl (fun acc t =>
        match acc with
        | none => none
        | some s =>
          if t.mul then
            if t.dr ≤ i ∧ t.dc ≤ j then
              match (lm[i - t.dr]?).bind (fun r => r[j - t.dc]?) with
              | some c => some (s + t.coeff * c)
              | none => none
            else none
          else some (s + t.coeff)) (some base)
  else none

/-- Modelled from the spec: pick the candidate of minimum cost, the first
pattern-id in table order winning ties. -/
def chooseMin (cands : List (ℕ × ℚ)) : Option (ℕ × ℚ) :=
  cands.foldl (fun best c =>
    match best with
    | none => some c
    | some b => if c.2 < b.2 then some c else some b) none

/-- The engine's mutable state during the forward fill. -/
structure EngineState where
  cm : CMf
  dm : DMf

/-- Modelled from the spec: process one cell of the forward DP order — skip
cells already settled (seed or origin) and cells outside the window,
otherwise settle the cell with the minimizing pattern-id, or leave it
unreached when no pattern-id has a reached predecessor. -/
def engineStep (lm : List (List ℚ)) (sp : StepPattern) (wfun : WFun)
    (wargs : WindowArgs) (n m : ℕ) (st : EngineState) (ij : ℕ × ℕ) : EngineState :=
  let i := ij.1
  let j := ij.2
  if (st.cm i j).isSome then st
  else if ¬ wfun i j n m wargs then st
  else
    let cands := sp.pats.enum.filterMap
      (fun pc => (candidateCost lm st.cm pc.2 i j).map (fun c => (pc.1, c)))
    match chooseMin cands with
    | none => st
    | some pc =>
      { cm := fun a b => if a = i ∧ b = j then some pc.2 else st.cm a b,
        dm := fun a b => if a = i ∧ b = j then some pc.1 else st.dm a b }

/-- Modelled from the spec: `_globalCostMatrix` from the missing
`globalCostMatrix.py`.  Cell `(0,0)` is seeded with the local cost unless an
external seed is supplied; cells are processed in row-major order; seeded
cells are never overwritten and keep direction "none". -/
def _globalCostMatrix (lm : List (List ℚ)) (sp : StepPattern) (wfun : WFun)
    (seed : Option CMf) (wargs : WindowArgs) : GCMOut :=
  let n := lm.length
  let m := (lm.headD []).length
  let cm0 : CMf :=
    match seed with
    | some s => s
    | none => fun i j => if i = 0 ∧ j = 0 then (lm[0]?).bind (fun r => r[0]?) else none
  let st0 : EngineState := ⟨cm0, fun _ _ => none⟩
  let cells := (List.range n).flatMap (fun i => (List.range m).map (fun j => (i, j)))
  let stF := cells.foldl (engineStep lm sp wfun wargs n m) st0
  { costMatrix := (List.range n).map (fun i => (List.range m).map (fun j => stF.cm i j)),
    directionMatrix := (List.range n).map (fun i => (List.range m).map (fun j => stF.dm i j)) }

/-- `numpy.argmin` on a vector that may hold NaNs: `none` on an empty vector
(a `ValueError` at the call site); otherwise the index of the first NaN if
one exists, else the first index attaining the minimum. -/
def npArgminAux : List (Option ℚ) → ℕ → ℕ → ℚ → ℕ
  | [], _, bi, _ => bi
  | none :: _, idx, _, _ => idx
  | some v :: rest, idx, bi, bv =>
    if v < bv then npArgminAux rest (idx + 1) idx v
    else npArgminAux rest (idx + 1) bi bv

/-- `numpy.argmin` entry point (see `npArgminAux`). -/
def npArgmin : List (Option ℚ) → Option ℕ
  | [] => none
  | none :: _ => some 0
  | some v :: rest => some (npArgminAux rest 1 0 v)

/-- Lines 188-195 of `dtw.py`: rescale the last row of the cumulative cost
matrix according to the normalization hint (an unknown hint falls through
the `elif` chain and leaves the row unchanged). -/
def normalizeLastRow (hint : String) (n : ℕ) (row : List (Option ℚ)) : List (Option ℚ) :=
  if hint = "NA" then row
  else if hint = "N+M" then
    row.enum.map (fun jo => jo.2.map (fun v => v / ((n : ℚ) + jo.1 + 1)))
  else if hint = "N" then row.map (fun o => o.map (fun v => v / (n : ℚ)))
  else if hint = "M" then
    row.enum.map (fun jo => jo.2.map (fun v => v / ((jo.1 : ℚ) + 1)))
  else row

/-- The index sequences reconstructed by backtracking (chronological
order). -/
structure BTOut where
  index1 : List ℕ
  index2 : List ℕ
  index1s : List ℕ
  index2s : List ℕ
  deriving DecidableEq, Repr

/-- Read a direction matrix entry; out-of-range reads give `none`. -/
def dmGet (dm : List (List (Option ℕ))) (i j : ℕ) : Option ℕ :=
  ((dm[i]?).bind (fun r => r[j]?)).join

/-- Modelled from the spec: the offsets a pattern-id passes through when its
step is undone, in replay order — the non-null rows reversed (nearest first)
and the predecessor offset last. -/
def btSteps (pat : SPat) : List (ℕ × ℕ) :=
  ((pat.terms.filter (fun t => ¬(t.dr = 0 ∧ t.dc = 0))).reverse.map
    (fun t => (t.dr, t.dc))) ++ [(pat.pdr, pat.pdc)]

/-- Modelled from the spec: the backtracking loop.  The accumulators are in
visit order (terminal cell first) and are reversed on exit; the loop stops
at `(0,0)`, at a cell whose direction is unset (a seeded boundary cell), or
— for a degenerate pattern table on which the source would not terminate —
when the fuel runs out. -/
def btLoop (sp : StepPattern) (dm : List (List (Option ℕ))) :
    ℕ → ℕ → ℕ → List ℕ → List ℕ → List ℕ → List ℕ → BTOut
  | 0, _, _, ii, jj, iis, jjs => ⟨ii.reverse, jj.reverse, iis.reverse, jjs.reverse⟩
  | fuel + 1, i, j, ii, jj, iis, jjs =>
    if i = 0 ∧ j = 0 then ⟨ii.reverse, jj.reverse, iis.reverse, jjs.reverse⟩
    else
      match dmGet dm i j with
      | none => ⟨ii.reverse, jj.reverse, iis.reverse, jjs.reverse⟩
      | some s =>
        match sp.pats[s]? with
        | none => ⟨ii.reverse, jj.reverse, iis.reverse, jjs.reverse⟩
        | some pat =>
          let st := btSteps pat
          btLoop sp dm fuel (i - pat.pdr) (j - pat.pdc)
            (ii ++ [i - pat.pdr]) (jj ++ [j - pat.pdc])
            (iis ++ st.map (fun o => i - o.1)) (jjs ++ st.map (fun o => j - o.2))

/-- Modelled from the spec: `_backtrack` from the missing `backtrack.py` —
walk the direction matrix from the terminal cell `(rows - 1, jmin)` back to
the start, producing the distinct (`index1`, `index2`) and the
step-duplicated (`index1s`, `index2s`) chronological index sequences. -/
def _backtrack (sp : StepPattern) (dm : List (List (Option ℕ))) (jmin : ℕ) : BTOut :=
  let i0 := dm.length - 1
  btLoop sp dm (i0 + jmin + 1) i0 jmin [i0] [jmin] [i0] [jmin]

/-- The result object assembled by `dtw` (the `DTW` class plus the
attributes the driver sets).  Attributes that the driver may delete or never
assign are `Option` fields; the function-valued attributes
(`windowFunction`) are not represented. -/
structure DTW where
  costMatrix : Option (List (List (Option ℚ)))
  directionMatrix : Option (List (List (Option ℕ)))
  N : ℕ
  M : ℕ
  openEnd : Bool
  openBegin : Bool
  jmin : ℕ
  distance : Option ℚ
  normalizedDistance : Option ℚ
  index1 : Option (List ℤ)
  index2 : Option (List ℤ)
  index1s : Option (List ℤ)
  index2s : Option (List ℤ)
  localCostMatrix : Option (List (List ℚ))
  query : Option (List (List ℚ))
  reference : Option (List (List ℚ))
  deriving DecidableEq, Repr

/-- The seed matrix built for open-begin alignment (lines 163-164): first
row all zero, everything else unreached. -/
def obSeed : CMf := fun i _ => if i = 0 then some 0 else none

/-- Lines 158-167 of `dtw.py`: the open-begin pre-processing.  With
`open_begin`, a non-`"N"` hint is a configuration error; otherwise a null
row is prepended to the local cost matrix and the seed is built. -/
def obSetup (open_begin : Bool) (hint : String) (lm0 : List (List ℚ)) (m : ℕ) :
    Except PyErr (List (List ℚ) × Option CMf) :=
  if open_begin then
    if hint ≠ "N" then
      .error (.configError
        "Open-begin requires step patterns with N normalization (e.g. asymmetric, or R-J types (c)). See Tormene et al.")
    else .ok (List.replicate m 0 :: lm0, some obSeed)
  else .ok (lm0, none)

/-- Lines 197-202 of `dtw.py`: the terminal column — `m - 1` normally; under
`open_end` an `"NA"` hint is a configuration error and otherwise the argmin
of the normalized last row is taken. -/
def pickJmin (hint : String) (open_end : Bool) (m : ℕ) (lastcol : List (Option ℚ)) :
    Except PyErr ℕ :=
  if open_end then
    if hint = "NA" then
      .error (.configError "Open-end alignments require normalizable step patterns")
    else
      match npArgmin lastcol with
      | some k => .ok k
      | none => .error (.valueError "attempt to get argmin of an empty sequence")
  else .ok (m - 1)

/-- Lines 186-212 of `dtw.py`: read the last row of the cumulative cost
matrix (an index error when it is empty), normalize it, choose the terminal
column, read the raw distance there (raising when it is NaN) and compute the
normalized distance. -/
def postGcm (sp : StepPattern) (n m : ℕ) (open_end : Bool) (g : GCMOut) :
    Except PyErr (ℕ × Option ℚ × Option ℚ) :=
  match g.costMatrix.getLast? with
  | none => .error (.indexError "index -1 is out of bounds for axis 0 with size 0")
  | some lastRowRaw =>
    let lastcol := normalizeLastRow sp.hint n lastRowRaw
    match pickJmin sp.hint open_end m lastcol with
    | .error e => .error e
    | .ok jmin =>
      match lastRowRaw[jmin]? with
      | none => .error (.indexError "index is out of bounds for axis 1")
      | some dist =>
        if dist = none then
          .error (.valueError "No warping path found compatible with the local constraints")
        else
          .ok (jmin, dist,
            if sp.hint ≠ "NA" then (lastcol.getD jmin none) else none)

/-- Lines 170-212 of `dtw.py`: assemble the result object before
backtracking. -/
def mkBase (g : GCMOut) (n m : ℕ) (open_end open_begin : Bool) (jmin : ℕ)
    (dist nd : Option ℚ) : DTW :=
  { costMatrix := some g.costMatrix
    directionMatrix := some g.directionMatrix
    N := n
    M := m
    openEnd := open_end
    openBegin := open_begin
    jmin := jmin
    distance := dist
    normalizedDistance := nd
    index1 := none
    index2 := none
    index1s := none
    index2s := none
    localCostMatrix := none
    query := none
    reference := none }

/-- Lines 214-216 of `dtw.py`: unless `distance_only`, run backtracking and
merge the index sequences into the object. -/
def addBacktrack (sp : StepPattern) (g : GCMOut) (distance_only : Bool) (o : DTW) : DTW :=
  if distance_only then o
  else
    let bt := _backtrack sp g.directionMatrix o.jmin
    { o with
        index1 := some (bt.index1.map Int.ofNat)
        index2 := some (bt.index2.map Int.ofNat)
        index1s := some (bt.index1s.map Int.ofNat)
        index2s := some (bt.index2s.map Int.ofNat) }

/-- Read an object attribute, raising `AttributeError` when it was never
assigned. -/
def getAttr (o : Option α) (msg : String) : Except PyErr α :=
  match o with
  | some v => .ok v
  | none => .error (.attributeError msg)

/-- Lines 218-225 of `dtw.py`: under `open_begin`, strip the synthetic
leading row — drop the first entry of each index sequence, shift the query
indices down by one, and drop the first row of the local cost, cumulative
cost and direction matrices.  Accesses the index attributes in source order,
so a missing `index1` (after a distance-only run) raises first. -/
def obStrip (open_begin : Bool) (lm : List (List ℚ)) (o : DTW) :
    Except PyErr (DTW × List (List ℚ)) :=
  if open_begin then
    match getAttr o.index1 "DTW object has no attribute index1" with
    | .error e => .error e
    | .ok i1 =>
      match getAttr o.index1s "DTW object has no attribute index1s" with
      | .error e => .error e
      | .ok i1s =>
        match getAttr o.index2 "DTW object has no attribute index2" with
        | .error e => .error e
        | .ok i2 =>
          match getAttr o.index2s "DTW object has no attribute index2s" with
          | .error e => .error e
          | .ok i2s =>
            .ok ({ o with
                index1 := some ((i1.drop 1).map (fun v => v - 1))
                index1s := some ((i1s.drop 1).map (fun v => v - 1))
                index2 := some (i2.drop 1)
                index2s := some (i2s.drop 1)
                costMatrix := o.costMatrix.map (List.drop 1)
                directionMatrix := o.directionMatrix.map (List.drop 1) },
              lm.drop 1)
  else .ok (o, lm)

/-- Lines 227-234 of `dtw.py`: unless internals are kept, delete the cost
and direction matrices; otherwise retain the local cost matrix and — when
`y` was supplied — the coerced query and reference. -/
def finalizeInternals (keep_internals ySupplied : Bool)
    (qx ry : Option (List (List ℚ))) (lmF : List (List ℚ)) (o : DTW) : DTW :=
  if keep_internals then
    { o with
        localCostMatrix := some lmF
        query := if ySupplied then qx else o.query
        reference := if ySupplied then ry else o.reference }
  else { o with costMatrix := none, directionMatrix := none }

/-- The body of `dtw` after input and window resolution: open-begin setup,
the engine, distance extraction, backtracking and the open-begin strip.
Returns the result object (before the internals decision) and the local
cost matrix then in scope. -/
def dtwCore (lm0 : List (List ℚ)) (sp : StepPattern) (wfun : WFun)
    (wargs : WindowArgs) (distance_only open_end open_begin : Bool) :
    Except PyErr (DTW × List (List ℚ)) :=
  let n := lm0.length
  let m := (lm0.headD []).length
  match obSetup open_begin sp.hint lm0 m with
  | .error e => .error e
  | .ok lmPrec =>
    let g := _globalCostMatrix lmPrec.1 sp wfun lmPrec.2 wargs
    match postGcm sp n m open_end g with
    | .error e => .error e
    | .ok jdn =>
      let base := mkBase g n m open_end open_begin jdn.1 jdn.2.1 jdn.2.2
      let o := addBacktrack sp g distance_only base
      obStrip open_begin lmPrec.1 o

/-- `dtw` from `dtw.py` (lines 61-236): the sole entry point. -/
def dtw (x : NDArr) (y : Option NDArr) (dist_method : List ℚ → List ℚ → ℚ)
    (step_pattern : StepPattern) (window_type : WindowType) (window_args : WindowArgs)
    (keep_internals distance_only open_end open_begin : Bool) : Except PyErr DTW :=
  match resolveInput x y dist_method with
  | .error e => .error e
  | .ok lqr =>
    match _canonicalizeWindowFunction window_type with
    | .error e => .error e
    | .ok wfun =>
      match dtwCore lqr.1 step_pattern wfun window_args distance_only open_end open_begin with
      | .error e => .error e
      | .ok olm => .ok (finalizeInternals keep_internals y.isSome lqr.2.1 lqr.2.2 olm.2 olm.1)

/-- The result object of `dtw` on the 1×1 local cost matrix `[[5]]` with
the `asymmetric` pattern — a concrete successful run used by witnesses. -/
def run11 : DTW :=
  { costMatrix := none, directionMatrix := none, N := 1, M := 1,
    openEnd := false, openBegin := false, jmin := 0, distance := some 5,
    normalizedDistance := some 5, index1 := some [0], index2 := some [0],
    index1s := some [0], index2s := some [0], localCostMatrix := none,
    query := none, reference := none }

/-- The result object of `dtw` on `[[3]]` with `symmetric2` (hint `"N+M"`)
— a concrete successful run used by witnesses. -/
def run33 : DTW :=
  { costMatrix := none, directionMatrix := none, N := 1, M := 1,
    openEnd := false, openBegin := false, jmin := 0, distance := some 3,
    normalizedDistance := some (3 / 2), index1 := some [0], index2 := some [0],
    index1s := some [0], index2s := some [0], localCostMatrix := none,
    query := none, reference := none }

/-- The result object of `dtw` on `[[1,2],[3,1]]` with `asymmetric` and
`open_end` — a concrete successful open-end run used by witnesses. -/
def run22oe : DTW :=
  { costMatrix := none, directionMatrix := none, N := 2, M := 2,
    openEnd := true, openBegin := false, jmin := 1, distance := some 2,
    normalizedDistance := some 1, index1 := some [0, 1], index2 := some [0, 1],
    index1s := some [0, 1], index2s := some [0, 1], localCostMatrix := none,
    query := none, reference := none }

/-- The result of `dtw` on the pair `x = [[1],[2]]`, `y = [3]` with the
constant metric 1 and `keep_internals = false`. -/
def runYF : DTW :=
  { costMatrix := none, directionMatrix := none, N := 2, M := 1,
    openEnd := false, openBegin := false, jmin := 0, distance := some 2,
    normalizedDistance := some (2 / 3), index1 := some [0, 1],
    index2 := some [0, 0], index1s := some [0, 1], index2s := some [0, 0],
    localCostMatrix := none, query := none, reference := none }

/-- The same run as `runYF` with `keep_internals = true`. -/
def runYT : DTW :=
  { costMatrix := some [[some 1], [some 2]],
    directionMatrix := some [[none], [some 2]], N := 2, M := 1,
    openEnd := false, openBegin := false, jmin := 0, distance := some 2,
    normalizedDistance := some (2 / 3), index1 := some [0, 1],
    index2 := some [0, 0], index1s := some [0, 1], index2s := some [0, 0],
    localCostMatrix := some [[1], [1]], query := some [[1], [2]],
    reference := some [[3]] }

/-- The result object of `dtw` on `[[1,2],[3,1]]` with `asymmetric`,
`open_begin = true` and `keep_internals = true` — a concrete successful
open-begin run used by witnesses. -/
def runOB : DTW :=
  { costMatrix := some [[some 1, some 2], [some 4, some 2]],
    directionMatrix := some [[some 0, some 0], [some 0, some 1]],
    N := 2, M := 2, openEnd := false, openBegin := true, jmin := 1,
    distance := some 2, normalizedDistance := some 1, index1 := some [0, 1],
    index2 := some [0, 1], index1s := some [0, 1], index2s := some [0, 1],
    localCostMatrix := some [[1, 2], [3, 1]], query := none, reference := none }

/-! ## Stage lemmas -/

theorem addBacktrack_distance (sp : StepPattern) (g : GCMOut) (d : Bool) (o : DTW) :
    (addBacktrack sp g d o).distance = o.distance := by
  unfold addBacktrack; split <;> rfl

theorem addBacktrack_normalizedDistance (sp : StepPattern) (g : GCMOut) (d : Bool) (o : DTW) :
    (addBacktrack sp g d o).normalizedDistance = o.normalizedDistance := by
  unfold addBacktrack; split <;> rfl

theorem addBacktrack_jmin (sp : StepPattern) (g : GCMOut) (d : Bool) (o : DTW) :
    (addBacktrack sp g d o).jmin = o.jmin := by
  unfold addBacktrack; split <;> rfl

theorem addBacktrack_N (sp : StepPattern) (g : GCMOut) (d : Bool) (o : DTW) :
    (addBacktrack sp g d o).N = o.N := by
  unfold addBacktrack; split <;> rfl

theorem addBacktrack_M (sp : StepPattern) (g : GCMOut) (d : Bool) (o : DTW) :
    (addBacktrack sp g d o).M = o.M := by
  unfold addBacktrack; split <;> rfl

theorem addBacktrack_costMatrix (sp : StepPattern) (g : GCMOut) (d : Bool) (o : DTW) :
    (addBacktrack sp g d o).costMatrix = o.costMatrix := by
  unfold addBacktrack; split <;> rfl

theorem addBacktrack_directionMatrix (sp : StepPattern) (g : GCMOut) (d : Bool) (o : DTW) :
    (addBacktrack sp g d o).directionMatrix = o.directionMatrix := by
  unfold addBacktrack; split <;> rfl

theorem obStrip_ok_fields {open_begin : Bool} {lm : List (List ℚ)} {o o' : DTW}
    {lmF : List (List ℚ)} (h : obStrip open_begin lm o = .ok (o', lmF)) :
    o'.distance = o.distance ∧ o'.normalizedDistance = o.normalizedDistance ∧
    o'.jmin = o.jmin ∧ o'.N = o.N ∧ o'.M = o.M := by
  unfold obStrip at h
  split at h
  · cases h1 : getAttr o.index1 "DTW object has no attribute index1" <;> rw [h1] at h
    · exact absurd h (by simp)
    case ok i1 =>
      cases h2 : getAttr o.index1s "DTW object has no attribute index1s" <;> rw [h2] at h
      · exact absurd h (by simp)
      case ok i1s =>
        cases h3 : getAttr o.index2 "DTW object has no attribute index2" <;> rw [h3] at h
        · exact absurd h (by simp)
        case ok i2 =>
          cases h4 : getAttr o.index2s "DTW object has no attribute index2s" <;> rw [h4] at h
          · exact absurd h (by simp)
          case ok i2s =>
            cases h
            exact ⟨rfl, rfl, rfl, rfl, rfl⟩
  · cases h
    exact ⟨rfl, rfl, rfl, rfl, rfl⟩

theorem finalizeInternals_fields (k ys : Bool) (qx ry : Option (List (List ℚ)))
    (lmF : List (List ℚ)) (o : DTW) :
    (finalizeInternals k ys qx ry lmF o).distance = o.distance ∧
    (finalizeInternals k ys qx ry lmF o).normalizedDistance = o.normalizedDistance ∧
    (finalizeInternals k ys qx ry lmF o).jmin = o.jmin ∧
    (finalizeInternals k ys qx ry lmF o).N = o.N ∧
    (finalizeInternals k ys qx ry lmF o).M = o.M ∧
    (finalizeInternals k ys qx ry lmF o).index1 = o.index1 ∧
    (finalizeInternals k ys qx ry lmF o).index2 = o.index2 ∧
    (finalizeInternals k ys qx ry lmF o).index1s = o.index1s ∧
    (finalizeInternals k ys qx ry lmF o).index2s = o.index2s := by
  unfold finalizeInternals; split <;> exact ⟨rfl, rfl, rfl, rfl, rfl, rfl, rfl, rfl, rfl⟩

/-- Unfolding `dtw` once input and window resolution are fixed. -/
theorem dtw_eq_core {x : NDArr} {y : Option NDArr} {f : List ℚ → List ℚ → ℚ}
    {sp : StepPattern} {wt : WindowType} {wargs : WindowArgs}
    {k d oe ob : Bool} {lm0 : List (List ℚ)}
    {qx ry : Option (List (List ℚ))} {wfun : WFun}
    (hres : resolveInput x y f = .ok (lm0, qx, ry))
    (hw : _canonicalizeWindowFunction wt = .ok wfun) :
    dtw x y f sp wt wargs k d oe ob =
      match dtwCore lm0 sp wfun wargs d oe ob with
      | .error e => .error e
      | .ok olm => .ok (finalizeInternals k y.isSome qx ry olm.2 olm.1) := by
  unfold dtw
  rw [hres, hw]

/-- Unfolding `dtwCore` once the open-begin setup is fixed. -/
theorem dtwCore_eq {lm0 : List (List ℚ)} {sp : StepPattern} {wfun : WFun}
    {wargs : WindowArgs} {d oe ob : Bool} {lm : List (List ℚ)} {prec : Option CMf}
    (hob : obSetup ob sp.hint lm0 ((lm0.headD []).length) = .ok (lm, prec)) :
    dtwCore lm0 sp wfun wargs d oe ob =
      match postGcm sp lm0.length ((lm0.headD []).length) oe
          (_globalCostMatrix lm sp wfun prec wargs) with
      | .error e => .error e
      | .ok jdn =>
        obStrip ob lm (addBacktrack sp (_globalCostMatrix lm sp wfun prec wargs) d
          (mkBase (_globalCostMatrix lm sp wfun prec wargs) lm0.length
            ((lm0.headD []).length) oe ob jdn.1 jdn.2.1 jdn.2.2)) := by
  simp only [dtwCore, hob]

/-- What a successful `postGcm` run guarantees. -/
theorem postGcm_ok {sp : StepPattern} {n m : ℕ} {oe : Bool} {g : GCMOut}
    {jmin : ℕ} {dist nd : Option ℚ}
    (h : postGcm sp n m oe g = .ok (jmin, dist, nd)) :
    ∃ lastRow, g.costMatrix.getLast? = some lastRow ∧
      pickJmin sp.hint oe m (normalizeLastRow sp.hint n lastRow) = .ok jmin ∧
      lastRow[jmin]? = some dist ∧ dist ≠ none ∧
      nd = (if sp.hint ≠ "NA" then (normalizeLastRow sp.hint n lastRow).getD jmin none
            else none) := by
  unfold postGcm at h
  cases hl : g.costMatrix.getLast? <;> simp only [hl] at h
  · exact absurd h (by simp)
  case some lastRow =>
    refine ⟨lastRow, rfl, ?_⟩
    cases hp : pickJmin sp.hint oe m (normalizeLastRow sp.hint n lastRow) <;>
      simp only [hp] at h
    · exact absurd h (by simp)
    case ok j0 =>
      cases hget : lastRow[j0]? <;> simp only [hget] at h
      · exact absurd h (by simp)
      case some d0 =>
        by_cases hne : d0 = none
        · rw [if_pos hne] at h
          exact absurd h (by simp)
        · rw [if_neg hne] at h
          simp only [Except.ok.injEq, Prod.mk.injEq] at h
          obtain ⟨rfl, rfl, rfl⟩ := h
          exact ⟨rfl, hget, hne, rfl⟩

/-- What a successful `pickJmin` run guarantees. -/
theorem pickJmin_ok {hint : String} {oe : Bool} {m : ℕ} {lc : List (Option ℚ)} {jmin : ℕ}
    (h : pickJmin hint oe m lc = .ok jmin) :
    (oe = false → jmin = m - 1) ∧
    (oe = true → hint ≠ "NA" ∧ npArgmin lc = some jmin) := by
  unfold pickJmin at h
  cases oe
  · rw [if_neg (by simp : ¬(false = true))] at h
    cases h
    exact ⟨fun _ => rfl, fun hc => absurd hc (by simp)⟩
  · rw [if_pos rfl] at h
    refine ⟨fun hc => absurd hc (by simp), fun _ => ?_⟩
    by_cases hna : hint = "NA"
    · rw [if_pos hna] at h
      exact absurd h (by simp)
    · rw [if_neg hna] at h
      cases ha : npArgmin lc <;> simp only [ha] at h
      · exact absurd h (by simp)
      · cases h; exact ⟨hna, rfl⟩

/-- A successful `dtw` call decomposed into its stages, with the returned
fields traced back to the stage outputs. -/
theorem dtw_ok_spec {x : NDArr} {y : Option NDArr} {f : List ℚ → List ℚ → ℚ}
    {sp : StepPattern} {wt : WindowType} {wargs : WindowArgs}
    {k d oe ob : Bool} {a : DTW}
    (h : dtw x y f sp wt wargs k d oe ob = .ok a) :
    ∃ lm0 qx ry wfun lm prec jmin dist nd,
      resolveInput x y f = .ok (lm0, qx, ry) ∧
      _canonicalizeWindowFunction wt = .ok wfun ∧
      obSetup ob sp.hint lm0 ((lm0.headD []).length) = .ok (lm, prec) ∧
      postGcm sp lm0.length ((lm0.headD []).length) oe
        (_globalCostMatrix lm sp wfun prec wargs) = .ok (jmin, dist, nd) ∧
      a.distance = dist ∧ a.normalizedDistance = nd ∧ a.jmin = jmin ∧
      a.N = lm0.length ∧ a.M = (lm0.headD []).length := by
  unfold dtw at h
  cases hres : resolveInput x y f <;> simp only [hres] at h
  · exact absurd h (by simp)
  case ok lqr =>
    obtain ⟨lm0, qx, ry⟩ := lqr
    cases hw : _canonicalizeWindowFunction wt <;> simp only [hw] at h
    · exact absurd h (by simp)
    case ok wfun =>
      cases hc : dtwCore lm0 sp wfun wargs d oe ob <;> simp only [hc] at h
      · exact absurd h (by simp)
      case ok olm =>
        obtain ⟨o', lmF⟩ := olm
        cases h
        unfold dtwCore at hc
        cases hob : obSetup ob sp.hint lm0 ((lm0.headD []).length) <;>
          simp only [hob] at hc
        · exact absurd hc (by simp)
        case ok lmPrec =>
          obtain ⟨lm, prec⟩ := lmPrec
          cases hpost : postGcm sp lm0.length ((lm0.headD []).length) oe
              (_globalCostMatrix lm sp wfun prec wargs) <;> simp only [hpost] at hc
          · exact absurd hc (by simp)
          case ok jdn =>
            obtain ⟨jmin, dist, nd⟩ := jdn
            obtain ⟨hd, hn, hj, hN, hM⟩ := obStrip_ok_fields hc
            obtain ⟨fd, fn, fj, fN, fM, -⟩ :=
              finalizeInternals_fields k y.isSome qx ry lmF o'
            refine ⟨lm0, qx, ry, wfun, lm, prec, jmin, dist, nd, rfl, rfl, hob, hpost,
              ?_, ?_, ?_, ?_, ?_⟩
            · rw [fd, hd, addBacktrack_distance]
              rfl
            · rw [fn, hn, addBacktrack_normalizedDistance]
              rfl
            · rw [fj, hj, addBacktrack_jmin]
              rfl
            · rw [fN, hN, addBacktrack_N]
              rfl
            · rw [fM, hM, addBacktrack_M]
              rfl


theorem normalizeLastRow_NA (n : ℕ) (r : List (Option ℚ)) :
    normalizeLastRow "NA" n r = r := by
  simp [normalizeLastRow]

theorem normalizeLastRow_N (n : ℕ) (r : List (Option ℚ)) :
    normalizeLastRow "N" n r = r.map (fun o => o.map (fun v => v / (n : ℚ))) := by
  simp [normalizeLastRow]

theorem normalizeLastRow_NplusM_get (n : ℕ) (r : List (Option ℚ)) (j : ℕ) :
    (normalizeLastRow "N+M" n r)[j]? =
      (r[j]?).map (fun o => o.map (fun v => v / ((n : ℚ) + j + 1))) := by
  cases h : r[j]? <;> simp [normalizeLastRow, List.getElem?_enum, h]

theorem normalizeLastRow_M_get (n : ℕ) (r : List (Option ℚ)) (j : ℕ) :
    (normalizeLastRow "M" n r)[j]? =
      (r[j]?).map (fun o => o.map (fun v => v / ((j : ℚ) + 1))) := by
  cases h : r[j]? <;> simp [normalizeLastRow, List.getElem?_enum, h]

/-- Regardless of the hint, normalization rescales each entry in place:
entry `j` of the result is entry `j` of the raw row with a hint-dependent
rescaling applied under the `Option`. -/
theorem normalizeLastRow_exists_map (hint : String) (n : ℕ) (r : List (Option ℚ)) :
    ∃ f : ℕ → ℚ → ℚ, ∀ j, (normalizeLastRow hint n r)[j]? =
      Option.map (Option.map (f j)) r[j]? := by
  by_cases h1 : hint = "NA"
  · subst h1
    refine ⟨fun _ v => v, fun j => ?_⟩
    rw [normalizeLastRow_NA]
    rcases r[j]? with _ | (_ | v) <;> rfl
  by_cases h2 : hint = "N+M"
  · subst h2
    exact ⟨fun j v => v / ((n : ℚ) + j + 1), fun j => normalizeLastRow_NplusM_get n r j⟩
  by_cases h3 : hint = "N"
  · subst h3
    refine ⟨fun _ v => v / (n : ℚ), fun j => ?_⟩
    rw [normalizeLastRow_N, List.getElem?_map]
  by_cases h4 : hint = "M"
  · subst h4
    exact ⟨fun j v => v / ((j : ℚ) + 1), fun j => normalizeLastRow_M_get n r j⟩
  · refine ⟨fun _ v => v, fun j => ?_⟩
    unfold normalizeLastRow
    rw [if_neg h1, if_neg h2, if_neg h3, if_neg h4]
    rcases r[j]? with _ | (_ | v) <;> rfl

/-! ## `numpy.argmin` lemmas -/

/-- The accumulator invariant of `npArgminAux` on NaN-free vectors: the
result is either the running best index (and the running best value bounds
the list) or points into the list at a value strictly better than the
running best and minimal in the list. -/
theorem npArgminAux_spec (l : List (Option ℚ)) (hall : ∀ o ∈ l, o.isSome) :
    ∀ idx bi bv,
      (npArgminAux l idx bi bv = bi ∧ ∀ o ∈ l, ∀ v, o = some v → bv ≤ v) ∨
      (∃ k, k < l.length ∧ npArgminAux l idx bi bv = idx + k ∧
        ∃ v, l[k]? = some (some v) ∧ v < bv ∧
          ∀ o ∈ l, ∀ w, o = some w → v ≤ w) := by
  induction l with
  | nil => exact fun idx bi bv => .inl ⟨rfl, by simp⟩
  | cons o rest ih =>
    intro idx bi bv
    match o, hall o (List.mem_cons_self o rest) with
    | some v, _ =>
      have hrest : ∀ o ∈ rest, o.isSome := fun o ho => hall o (List.mem_cons_of_mem _ ho)
      by_cases hv : v < bv
      · rw [show npArgminAux (some v :: rest) idx bi bv = npArgminAux rest (idx + 1) idx v by
          simp [npArgminAux, if_pos hv]]
        rcases ih hrest (idx + 1) idx v with ⟨heq, hge⟩ | ⟨k, hk, heq, w, hw, hwv, hge⟩
        · refine .inr ⟨0, by simp, by simpa using heq, v, by simp, hv, ?_⟩
          intro o ho u hou
          rcases List.mem_cons.1 ho with rfl | ho
          · cases hou; exact le_refl v
          · exact hge o ho u hou
        · refine .inr ⟨k + 1, by simpa using Nat.succ_lt_succ hk,
            by rw [heq]; omega, w, by simpa using hw, lt_trans hwv hv, ?_⟩
          intro o ho u hou
          rcases List.mem_cons.1 ho with rfl | ho
          · cases hou; exact le_of_lt hwv
          · exact hge o ho u hou
      · rw [show npArgminAux (some v :: rest) idx bi bv = npArgminAux rest (idx + 1) bi bv by
          simp [npArgminAux, if_neg hv]]
        rcases ih hrest (idx + 1) bi bv with ⟨heq, hge⟩ | ⟨k, hk, heq, w, hw, hwv, hge⟩
        · refine .inl ⟨heq, ?_⟩
          intro o ho u hou
          rcases List.mem_cons.1 ho with rfl | ho
          · cases hou; exact le_of_not_lt hv
          · exact hge o ho u hou
        · refine .inr ⟨k + 1, by simpa using Nat.succ_lt_succ hk,
            by rw [heq]; omega, w, by simpa using hw, hwv, ?_⟩
          intro o ho u hou
          rcases List.mem_cons.1 ho with rfl | ho
          · cases hou; exact le_trans (le_of_lt hwv) (le_of_not_lt hv)
          · exact hge o ho u hou

/-- `npArgminAux` lands on a NaN entry when one exists (numpy's argmin
propagates NaN and returns the position of the first one). -/
theorem npArgminAux_none_mem (l : List (Option ℚ)) :
    ∀ idx bi bv, none ∈ l →
      ∃ k, l[k]? = some none ∧ npArgminAux l idx bi bv = idx + k := by
  induction l with
  | nil => intro idx bi bv h; exact absurd h (by simp)
  | cons o rest ih =>
    intro idx bi bv h
    cases o with
    | none => exact ⟨0, by simp, by simp [npArgminAux]⟩
    | some v =>
      have hmem : none ∈ rest := by
        rcases List.mem_cons.1 h with hc | hr
        · exact absurd hc (by simp)
        · exact hr
      by_cases hv : v < bv
      · obtain ⟨k, hk, heq⟩ := ih (idx + 1) idx v hmem
        refine ⟨k + 1, by simpa using hk, ?_⟩
        rw [show npArgminAux (some v :: rest) idx bi bv = npArgminAux rest (idx + 1) idx v by
          simp [npArgminAux, if_pos hv]]
        rw [heq]; omega
      · obtain ⟨k, hk, heq⟩ := ih (idx + 1) bi bv hmem
        refine ⟨k + 1, by simpa using hk, ?_⟩
        rw [show npArgminAux (some v :: rest) idx bi bv = npArgminAux rest (idx + 1) bi bv by
          simp [npArgminAux, if_neg hv]]
        rw [heq]; omega

/-- When `numpy.argmin` returns an index holding a non-NaN value, the vector
is NaN-free and the value at that index is minimal. -/
theorem npArgmin_min {l : List (Option ℚ)} {k : ℕ} {v : ℚ}
    (h : npArgmin l = some k) (hk : l[k]? = some (some v)) :
    (∀ o ∈ l, o.isSome) ∧ ∀ (j : ℕ) (w : ℚ), l[j]? = some (some w) → v ≤ w := by
  cases l with
  | nil => exact absurd h (by simp [npArgmin])
  | cons o rest =>
    cases o with
    | none =>
      have hk0 : k = 0 := by simpa [npArgmin] using h.symm
      subst hk0
      exact absurd hk (by simp)
    | some v0 =>
      have hkeq : k = npArgminAux rest 1 0 v0 := by simpa [npArgmin] using h.symm
      have hnon : ¬ (none ∈ rest) := by
        intro hmem
        obtain ⟨k', hk', heq⟩ := npArgminAux_none_mem rest 1 0 v0 hmem
        rw [heq] at hkeq
        subst hkeq
        rw [show (1 + k') = k' + 1 by omega] at hk
        simp only [List.getElem?_cons_succ] at hk
        rw [hk'] at hk
        exact absurd hk (by simp)
      have hall : ∀ o ∈ rest, o.isSome := by
        intro o ho
        cases o with
        | none => exact absurd ho hnon
        | some w => rfl
      constructor
      · intro o ho
        rcases List.mem_cons.1 ho with rfl | ho
        · rfl
        · exact hall o ho
      rcases npArgminAux_spec rest hall 1 0 v0 with ⟨heq, hge⟩ | ⟨k', hk', heq, w, hw, hwv, hge⟩
      · rw [heq] at hkeq
        subst hkeq
        rw [List.getElem?_cons_zero] at hk
        have hv : v0 = v := by simpa using hk
        subst hv
        intro j w hj
        cases j with
        | zero =>
          rw [List.getElem?_cons_zero] at hj
          have : v0 = w := by simpa using hj
          exact le_of_eq this
        | succ j' =>
          simp only [List.getElem?_cons_succ] at hj
          exact hge _ (List.mem_iff_getElem?.2 ⟨j', hj⟩) w rfl
      · rw [heq] at hkeq
        subst hkeq
        rw [show (1 + k') = k' + 1 by omega] at hk
        simp only [List.getElem?_cons_succ] at hk
        rw [hw] at hk
        have hv : w = v := by simpa using hk
        subst hv
        intro j u hj
        cases j with
        | zero =>
          rw [List.getElem?_cons_zero] at hj
          have : v0 = u := by simpa using hj
          exact this ▸ le_of_lt hwv
        | succ j' =>
          simp only [List.getElem?_cons_succ] at hj
          exact hge _ (List.mem_iff_getElem?.2 ⟨j', hj⟩) u rfl

/-! ## Input coercion lemmas -/

theorem npT_single (v : List ℚ) : npT [v] = v.map (fun q => [q]) := by
  unfold npT
  apply List.ext_getElem
  · simp
  · intro i h1 h2
    simp only [List.getElem_map, List.getElem_range, List.headD_cons]
    have hi : i < v.length := by simpa using h2
    simp [List.getD_eq_getElem?_getD, List.getElem?_eq_getElem hi]

/-! ## Claim theorems -/

/-- **C1** (code-bug evidence): for a window-type name string that is not
one of the known names, `_canonicalizeWindowFunction` does not raise a
configuration error identifying the window function as undefined — it
raises `NameError` on the undefined variable `w` before the lookup runs,
and it does exactly the same for a known name such as `"sakoechiba"`. -/
theorem C1_unknown_window_name_bug :
    _canonicalizeWindowFunction (WindowType.name "bogus") =
      .error (.nameError "name w is not defined") ∧
    (PyErr.nameError "name w is not defined").isConfigurationError = false ∧
    _canonicalizeWindowFunction (WindowType.name "sakoechiba") =
      .error (.nameError "name w is not defined") :=
  ⟨rfl, rfl, rfl⟩

/-- **C2**: (a) a successful `dtw` call never returns an alignment whose
`distance` is NaN; (b) whenever the run reaches the distance lookup and the
raw cumulative cost at (last row, terminal column) is NaN, `dtw` raises the
"No warping path found" `ValueError`. -/
theorem C2_nan_distance_infeasibility (x : NDArr) (y : Option NDArr)
    (f : List ℚ → List ℚ → ℚ) (sp : StepPattern) (wt : WindowType)
    (wargs : WindowArgs) (k d oe ob : Bool) :
    (∀ a : DTW, dtw x y f sp wt wargs k d oe ob = .ok a → a.distance.isSome) ∧
    (∀ (lm0 lm : List (List ℚ)) (qx ry : Option (List (List ℚ))) (wfun : WFun)
        (prec : Option CMf) (lastRow : List (Option ℚ)) (jmin : ℕ),
      resolveInput x y f = .ok (lm0, qx, ry) →
      _canonicalizeWindowFunction wt = .ok wfun →
      obSetup ob sp.hint lm0 ((lm0.headD []).length) = .ok (lm, prec) →
      (_globalCostMatrix lm sp wfun prec wargs).costMatrix.getLast? = some lastRow →
      pickJmin sp.hint oe ((lm0.headD []).length)
        (normalizeLastRow sp.hint lm0.length lastRow) = .ok jmin →
      lastRow[jmin]? = some none →
      dtw x y f sp wt wargs k d oe ob =
        .error (.valueError "No warping path found compatible with the local constraints")) := by
  constructor
  · intro a ha
    obtain ⟨lm0, qx, ry, wfun, lm, prec, jmin, dist, nd, hres, hw, hob, hpost, hd, -⟩ :=
      dtw_ok_spec ha
    obtain ⟨lastRow, -, -, -, hne, -⟩ := postGcm_ok hpost
    rw [hd]
    exact Option.ne_none_iff_isSome.1 hne
  · intro lm0 lm qx ry wfun prec lastRow jmin hres hw hob hlast hpick hget
    have hpost : postGcm sp lm0.length ((lm0.headD []).length) oe
        (_globalCostMatrix lm sp wfun prec wargs) =
        .error (.valueError "No warping path found compatible with the local constraints") := by
      simp only [postGcm, hlast, hpick, hget, if_true]
    rw [dtw_eq_core hres hw, dtwCore_eq hob, hpost]

/-- Witness for C2: a 1×1 local cost matrix aligns successfully with a
non-NaN distance, and a 1×2 matrix under the `asymmetric` pattern has an
unreached terminal cell and raises the infeasibility error. -/
theorem C2_witness :
    run11.distance.isSome ∧
    dtw (.two [[0, 0]]) none (fun _ _ => 0) asymmetric .none {} false false false false =
      .error (.valueError "No warping path found compatible with the local constraints") :=
  ⟨(C2_nan_distance_infeasibility (.two [[5]]) none (fun _ _ => 0) asymmetric .none {}
      false false false false).1 _ (by with_unfolding_all rfl),
   (C2_nan_distance_infeasibility (.two [[0, 0]]) none (fun _ _ => 0) asymmetric .none {}
      false false false false).2 [[0, 0]] [[0, 0]] none none noWindow none
      [some 0, none] 1 rfl rfl rfl (by with_unfolding_all rfl)
      (by with_unfolding_all rfl) rfl⟩

/-- **C3**: `dtw` fails with a configuration error, before any alignment
result is produced, when (i) `y` is omitted and `x` is not 2-D, (ii)
`open_begin` is requested with a step pattern whose hint is not `"N"`, and
(iii) `open_end` is requested with an `"NA"`-hint step pattern (the latter
once the preceding stages have not failed first). -/
theorem C3_configuration_errors (x : NDArr) (y : Option NDArr)
    (f : List ℚ → List ℚ → ℚ) (sp : StepPattern) (wt : WindowType)
    (wargs : WindowArgs) (k d oe ob : Bool) (lm0 : List (List ℚ))
    (qx ry : Option (List (List ℚ))) (wfun : WFun) :
    (∀ v : List ℚ, dtw (.one v) none f sp wt wargs k d oe ob =
        .error (.valueError "A 2D local distance matrix was expected") ∧
      (PyErr.valueError "A 2D local distance matrix was expected").isConfigurationError = true) ∧
    (resolveInput x y f = .ok (lm0, qx, ry) →
      _canonicalizeWindowFunction wt = .ok wfun →
      sp.hint ≠ "N" →
      dtw x y f sp wt wargs k d oe true =
        .error (.configError
          "Open-begin requires step patterns with N normalization (e.g. asymmetric, or R-J types (c)). See Tormene et al.") ∧
      (PyErr.configError
        "Open-begin requires step patterns with N normalization (e.g. asymmetric, or R-J types (c)). See Tormene et al.").isConfigurationError = true) ∧
    (∀ lastRow : List (Option ℚ),
      resolveInput x y f = .ok (lm0, qx, ry) →
      _canonicalizeWindowFunction wt = .ok wfun →
      sp.hint = "NA" →
      (_globalCostMatrix lm0 sp wfun none wargs).costMatrix.getLast? = some lastRow →
      dtw x y f sp wt wargs k d true false =
        .error (.configError "Open-end alignments require normalizable step patterns") ∧
      (PyErr.configError
        "Open-end alignments require normalizable step patterns").isConfigurationError = true) := by
  refine ⟨fun v => ⟨rfl, rfl⟩, ?_, ?_⟩
  · intro hres hw hn
    have hob : obSetup true sp.hint lm0 ((lm0.headD []).length) =
        .error (.configError
          "Open-begin requires step patterns with N normalization (e.g. asymmetric, or R-J types (c)). See Tormene et al.") := by
      unfold obSetup
      rw [if_pos rfl, if_pos hn]
    have hcore : dtwCore lm0 sp wfun wargs d oe true =
        .error (.configError
          "Open-begin requires step patterns with N normalization (e.g. asymmetric, or R-J types (c)). See Tormene et al.") := by
      simp only [dtwCore, hob]
    rw [dtw_eq_core hres hw, hcore]
    exact ⟨rfl, rfl⟩
  · intro lastRow hres hw hna hlast
    have hob : obSetup false sp.hint lm0 ((lm0.headD []).length) = .ok (lm0, none) := by
      unfold obSetup
      rw [if_neg (by simp)]
    have hpick : pickJmin sp.hint true ((lm0.headD []).length)
        (normalizeLastRow sp.hint lm0.length lastRow) =
        .error (.configError "Open-end alignments require normalizable step patterns") := by
      unfold pickJmin
      rw [if_pos rfl, if_pos hna]
    have hpost : postGcm sp lm0.length ((lm0.headD []).length) true
        (_globalCostMatrix lm0 sp wfun none wargs) =
        .error (.configError "Open-end alignments require normalizable step patterns") := by
      simp only [postGcm, hlast, hpick]
    rw [dtw_eq_core hres hw, dtwCore_eq hob, hpost]
    exact ⟨rfl, rfl⟩

/-- Witness for C3: the three configuration errors raised at concrete
inputs. -/
theorem C3_witness :
    dtw (.one [0]) none (fun _ _ => 0) symmetric2 .none {} false false false false =
      .error (.valueError "A 2D local distance matrix was expected") ∧
    dtw (.two [[0]]) none (fun _ _ => 0) symmetric2 .none {} false false false true =
      .error (.configError
        "Open-begin requires step patterns with N normalization (e.g. asymmetric, or R-J types (c)). See Tormene et al.") ∧
    dtw (.two [[0]]) none (fun _ _ => 0) { pats := [], hint := "NA" } .none {} false false
        true false =
      .error (.configError "Open-end alignments require normalizable step patterns") :=
  ⟨((C3_configuration_errors (.two [[0]]) none (fun _ _ => 0) symmetric2 .none {}
      false false false false [[0]] none none noWindow).1 [0]).1,
   ((C3_configuration_errors (.two [[0]]) none (fun _ _ => 0) symmetric2 .none {}
      false false false true [[0]] none none noWindow).2.1 rfl rfl (by decide)).1,
   ((C3_configuration_errors (.two [[0]]) none (fun _ _ => 0) { pats := [], hint := "NA" }
      .none {} false false true false [[0]] none none noWindow).2.2 [some 0] rfl rfl rfl
      (by with_unfolding_all rfl)).1⟩

/-- **C6**: for a successful run whose step pattern has hint `"N"` (for
instance `asymmetric`), `normalizedDistance` equals `distance / N` exactly,
`N` being the query length. -/
theorem C6_normalized_distance_div_N {x : NDArr} {y : Option NDArr}
    {f : List ℚ → List ℚ → ℚ} {sp : StepPattern} {wt : WindowType}
    {wargs : WindowArgs} {k d oe ob : Bool} {a : DTW}
    (ha : dtw x y f sp wt wargs k d oe ob = .ok a)
    (hhint : sp.hint = "N") (_hn : 0 < a.N) :
    a.normalizedDistance = a.distance.map (fun v => v / (a.N : ℚ)) := by
  obtain ⟨lm0, qx, ry, wfun, lm, prec, jmin, dist, nd, hres, hw, hob, hpost,
    hd, hnd, hj, hN, hM⟩ := dtw_ok_spec ha
  obtain ⟨lastRow, hlast, hpick, hget, hne, hndval⟩ := postGcm_ok hpost
  rw [hnd, hndval, if_pos (show sp.hint ≠ "NA" by rw [hhint]; decide)]
  rw [hhint, normalizeLastRow_N, hd, hN]
  rw [List.getD_eq_getElem?_getD, List.getElem?_map, hget]
  rfl

/-- Witness for C6: the 1×1 `asymmetric` run has `normalizedDistance` equal
to `distance / N`. -/
theorem C6_witness :
    run11.normalizedDistance = run11.distance.map (fun v => v / (run11.N : ℚ)) :=
  @C6_normalized_distance_div_N (.two [[5]]) none (fun _ _ => 0) asymmetric .none {}
    false false false false run11 (by with_unfolding_all rfl) rfl (by decide)

/-- **C9** (implicit claim): with `open_begin = true` and
`distance_only = true`, once the configuration checks and the feasibility
check pass, `dtw` does not return a distance-only result — the open-begin
post-processing reads `index1`, which backtracking never produced, and the
call fails with an attribute error. -/
theorem C9_open_begin_distance_only (x : NDArr) (y : Option NDArr)
    (f : List ℚ → List ℚ → ℚ) (sp : StepPattern) (wt : WindowType)
    (wargs : WindowArgs) (k oe : Bool) (lm0 : List (List ℚ))
    (qx ry : Option (List (List ℚ))) (wfun : WFun) (jdn : ℕ × Option ℚ × Option ℚ)
    (hres : resolveInput x y f = .ok (lm0, qx, ry))
    (hw : _canonicalizeWindowFunction wt = .ok wfun)
    (hhint : sp.hint = "N")
    (hpost : postGcm sp lm0.length ((lm0.headD []).length) oe
        (_globalCostMatrix (List.replicate ((lm0.headD []).length) 0 :: lm0) sp wfun
          (some obSeed) wargs) = .ok jdn) :
    dtw x y f sp wt wargs k true oe true =
      .error (.attributeError "DTW object has no attribute index1") := by
  have hob : obSetup true sp.hint lm0 ((lm0.headD []).length) =
      .ok (List.replicate ((lm0.headD []).length) 0 :: lm0, some obSeed) := by
    unfold obSetup
    rw [if_pos rfl, if_neg (by simp [hhint])]
  rw [dtw_eq_core hres hw, dtwCore_eq hob, hpost]
  rfl

/-- Witness for C9: a concrete open-begin distance-only call that passes
all checks and fails with the attribute error. -/
theorem C9_witness :
    dtw (.two [[1]]) none (fun _ _ => 0) asymmetric .none {} false true false true =
      .error (.attributeError "DTW object has no attribute index1") :=
  C9_open_begin_distance_only (.two [[1]]) none (fun _ _ => 0) asymmetric .none {}
    false false [[1]] none none noWindow (0, some 1, some 1) rfl rfl rfl
    (by with_unfolding_all rfl)

/-- **C10** (implicit claim): when `y` is supplied, a 1-D input and a 2-D
input with exactly one row are both transposed into a single column, so a
`(1, k)` input becomes `k` scalar time steps; the local cost matrix handed
to the engine is the pairwise distance matrix of the coerced inputs. -/
theorem C10_series_coercion :
    (∀ v : List ℚ, coerceSeries (.one v) = v.map (fun q => [q])) ∧
    (∀ r : List ℚ, coerceSeries (.two [r]) = r.map (fun q => [q])) ∧
    (∀ mm : List (List ℚ), mm.length ≠ 1 → coerceSeries (.two mm) = mm) ∧
    (∀ (x yv : NDArr) (f : List ℚ → List ℚ → ℚ),
      resolveInput x (some yv) f =
        .ok (cdist (coerceSeries x) (coerceSeries yv) f,
          some (coerceSeries x), some (coerceSeries yv))) := by
  refine ⟨?_, ?_, ?_, fun x yv f => rfl⟩
  · intro v
    rw [show coerceSeries (.one v) = npT [v] by simp [coerceSeries, atleast_2d]]
    exact npT_single v
  · intro r
    rw [show coerceSeries (.two [r]) = npT [r] by simp [coerceSeries, atleast_2d]]
    exact npT_single r
  · intro mm h
    simp [coerceSeries, atleast_2d, if_neg h]

/-- Witness for C10: the coercions evaluated at concrete inputs. -/
theorem C10_witness :
    coerceSeries (.one [1, 2]) = [[1], [2]] ∧
    coerceSeries (.two [[1, 2]]) = [[1], [2]] ∧
    coerceSeries (.two [[1], [2]]) = [[1], [2]] ∧
    resolveInput (.two [[1, 2]]) (some (.one [3])) (fun _ _ => 7) =
      .ok ([[7], [7]], some [[1], [2]], some [[3]]) :=
  ⟨(C10_series_coercion.1 [1, 2]).trans rfl,
   (C10_series_coercion.2.1 [1, 2]).trans rfl,
   C10_series_coercion.2.2.1 [[1], [2]] (by decide),
   (C10_series_coercion.2.2.2 (.two [[1, 2]]) (.one [3]) (fun _ _ => 7)).trans rfl⟩

/-- Merge a successful `dtw` run with explicitly named stage outcomes. -/
theorem dtw_ok_stages {x : NDArr} {y : Option NDArr} {f : List ℚ → List ℚ → ℚ}
    {sp : StepPattern} {wt : WindowType} {wargs : WindowArgs} {k d oe ob : Bool}
    {a : DTW} {lm0 lm : List (List ℚ)} {qx ry : Option (List (List ℚ))}
    {wfun : WFun} {prec : Option CMf}
    (ha : dtw x y f sp wt wargs k d oe ob = .ok a)
    (hres : resolveInput x y f = .ok (lm0, qx, ry))
    (hw : _canonicalizeWindowFunction wt = .ok wfun)
    (hob : obSetup ob sp.hint lm0 ((lm0.headD []).length) = .ok (lm, prec)) :
    ∃ jmin dist nd,
      postGcm sp lm0.length ((lm0.headD []).length) oe
        (_globalCostMatrix lm sp wfun prec wargs) = .ok (jmin, dist, nd) ∧
      a.distance = dist ∧ a.normalizedDistance = nd ∧ a.jmin = jmin ∧
      a.N = lm0.length ∧ a.M = (lm0.headD []).length := by
  obtain ⟨lm0', qx', ry', wfun', lm', prec', jmin, dist, nd, hres', hw', hob', hpost',
    hd, hnd, hj, hN, hM⟩ := dtw_ok_spec ha
  rw [hres] at hres'
  simp only [Except.ok.injEq, Prod.mk.injEq] at hres'
  obtain ⟨rfl, rfl, rfl⟩ := hres'
  rw [hw] at hw'
  simp only [Except.ok.injEq] at hw'
  subst hw'
  rw [hob] at hob'
  simp only [Except.ok.injEq, Prod.mk.injEq] at hob'
  obtain ⟨rfl, rfl⟩ := hob'
  exact ⟨jmin, dist, nd, hpost', hd, hnd, hj, hN, hM⟩

/-- `obStrip` with `open_begin = false` is the identity. -/
theorem obStrip_false (lm : List (List ℚ)) (o : DTW) :
    obStrip false lm o = .ok (o, lm) := by
  unfold obStrip
  rw [if_neg (by simp)]

/-- Full characterization of a successful `obStrip` under `open_begin`. -/
theorem obStrip_true_spec {lm : List (List ℚ)} {o o' : DTW} {lmF : List (List ℚ)}
    (h : obStrip true lm o = .ok (o', lmF)) :
    ∃ i1 i1s i2 i2s,
      o.index1 = some i1 ∧ o.index1s = some i1s ∧
      o.index2 = some i2 ∧ o.index2s = some i2s ∧
      o'.index1 = some ((i1.drop 1).map (fun v => v - 1)) ∧
      o'.index1s = some ((i1s.drop 1).map (fun v => v - 1)) ∧
      o'.index2 = some (i2.drop 1) ∧ o'.index2s = some (i2s.drop 1) ∧
      o'.costMatrix = o.costMatrix.map (List.drop 1) ∧
      o'.directionMatrix = o.directionMatrix.map (List.drop 1) ∧
      lmF = lm.drop 1 := by
  unfold obStrip at h
  rw [if_pos rfl] at h
  cases h1 : o.index1 <;> simp only [h1, getAttr] at h
  · exact absurd h (by simp)
  case some i1 =>
    cases h2 : o.index1s <;> simp only [h2, getAttr] at h
    · exact absurd h (by simp)
    case some i1s =>
      cases h3 : o.index2 <;> simp only [h3, getAttr] at h
      · exact absurd h (by simp)
      case some i2 =>
        cases h4 : o.index2s <;> simp only [h4, getAttr] at h
        · exact absurd h (by simp)
        case some i2s =>
          simp only [Except.ok.injEq, Prod.mk.injEq] at h
          obtain ⟨rfl, rfl⟩ := h
          exact ⟨i1, i1s, i2, i2s, rfl, rfl, rfl, rfl, rfl, rfl, rfl, rfl, rfl, rfl, rfl⟩

/-- **C4**: for a successful run, the normalized last-row vector is the last
row of the engine's cumulative cost matrix rescaled per the hint — `"NA"`
leaves it unchanged, `"N+M"` divides entry `j` by `n + j + 1`, `"N"` divides
by `n`, `"M"` divides entry `j` by `j + 1`, with `n` the number of query
rows — and `normalizedDistance` is the normalized entry at the terminal
column when the hint is not `"NA"` and NaN when it is. -/
theorem C4_normalization {x : NDArr} {y : Option NDArr} {f : List ℚ → List ℚ → ℚ}
    {sp : StepPattern} {wt : WindowType} {wargs : WindowArgs} {k d oe ob : Bool}
    {a : DTW} {lm0 lm : List (List ℚ)} {qx ry : Option (List (List ℚ))}
    {wfun : WFun} {prec : Option CMf} {lastRow : List (Option ℚ)}
    (ha : dtw x y f sp wt wargs k d oe ob = .ok a)
    (hres : resolveInput x y f = .ok (lm0, qx, ry))
    (hw : _canonicalizeWindowFunction wt = .ok wfun)
    (hob : obSetup ob sp.hint lm0 ((lm0.headD []).length) = .ok (lm, prec))
    (hlast : (_globalCostMatrix lm sp wfun prec wargs).costMatrix.getLast? = some lastRow)
    (_hn : 0 < lm0.length) :
    (sp.hint = "NA" → normalizeLastRow sp.hint lm0.length lastRow = lastRow) ∧
    (sp.hint = "N+M" → ∀ j : ℕ, (normalizeLastRow sp.hint lm0.length lastRow)[j]? =
      (lastRow[j]?).map (Option.map (fun v => v / ((lm0.length : ℚ) + j + 1)))) ∧
    (sp.hint = "N" → normalizeLastRow sp.hint lm0.length lastRow =
      lastRow.map (Option.map (fun v => v / (lm0.length : ℚ)))) ∧
    (sp.hint = "M" → ∀ j : ℕ, (normalizeLastRow sp.hint lm0.length lastRow)[j]? =
      (lastRow[j]?).map (Option.map (fun v => v / ((j : ℚ) + 1)))) ∧
    a.normalizedDistance = (if sp.hint = "NA" then none
      else (normalizeLastRow sp.hint lm0.length lastRow).getD a.jmin none) := by
  obtain ⟨jmin, dist, nd, hpost, hd, hnd, hj, hN, hM⟩ := dtw_ok_stages ha hres hw hob
  obtain ⟨lastRow', hlast', hpick, hget, hne, hndval⟩ := postGcm_ok hpost
  rw [hlast] at hlast'
  simp only [Option.some.injEq] at hlast'
  subst hlast'
  refine ⟨?_, ?_, ?_, ?_, ?_⟩
  · intro h; rw [h]; exact normalizeLastRow_NA _ _
  · intro h j; rw [h]; exact normalizeLastRow_NplusM_get _ _ j
  · intro h; rw [h]; exact normalizeLastRow_N _ _
  · intro h j; rw [h]; exact normalizeLastRow_M_get _ _ j
  · rw [hnd, hndval, hj]
    by_cases hna : sp.hint = "NA" <;> simp [hna]

/-- Witness for C4: the `symmetric2` (hint `"N+M"`) run on `[[3]]`, where
the engine's last row is `[some 3]`. -/
theorem C4_witness :
    run33.normalizedDistance = (if symmetric2.hint = "NA" then none
      else (normalizeLastRow symmetric2.hint [[(3 : ℚ)]].length [some 3]).getD
        run33.jmin none) :=
  (@C4_normalization (.two [[3]]) none (fun _ _ => 0) symmetric2 .none {}
    false false false false run33 [[3]] [[3]] none none noWindow none [some 3]
    (by with_unfolding_all rfl) rfl rfl rfl (by with_unfolding_all rfl)
    (by decide)).2.2.2.2

/-- **C5**: for a successful run, the terminal column `jmin` is `M - 1`
without `open_end` and, with `open_end`, an index at which the normalized
last-row vector (then NaN-free) attains its minimum; the returned distance
is the raw cumulative cost at (last row, `jmin`). -/
theorem C5_terminal_column {x : NDArr} {y : Option NDArr} {f : List ℚ → List ℚ → ℚ}
    {sp : StepPattern} {wt : WindowType} {wargs : WindowArgs} {k d oe ob : Bool}
    {a : DTW} {lm0 lm : List (List ℚ)} {qx ry : Option (List (List ℚ))}
    {wfun : WFun} {prec : Option CMf} {lastRow : List (Option ℚ)}
    (ha : dtw x y f sp wt wargs k d oe ob = .ok a)
    (hres : resolveInput x y f = .ok (lm0, qx, ry))
    (hw : _canonicalizeWindowFunction wt = .ok wfun)
    (hob : obSetup ob sp.hint lm0 ((lm0.headD []).length) = .ok (lm, prec))
    (hlast : (_globalCostMatrix lm sp wfun prec wargs).costMatrix.getLast? = some lastRow) :
    (oe = false → a.jmin = (lm0.headD []).length - 1) ∧
    (oe = true →
      (∀ o ∈ normalizeLastRow sp.hint lm0.length lastRow, o.isSome) ∧
      ∃ vmin, (normalizeLastRow sp.hint lm0.length lastRow)[a.jmin]? = some (some vmin) ∧
        ∀ (j : ℕ) (w : ℚ),
          (normalizeLastRow sp.hint lm0.length lastRow)[j]? = some (some w) → vmin ≤ w) ∧
    lastRow[a.jmin]? = some a.distance := by
  obtain ⟨jmin, dist, nd, hpost, hd, hnd, hj, hN, hM⟩ := dtw_ok_stages ha hres hw hob
  obtain ⟨lastRow', hlast', hpick, hget, hne, hndval⟩ := postGcm_ok hpost
  rw [hlast] at hlast'
  simp only [Option.some.injEq] at hlast'
  subst hlast'
  obtain ⟨hfalse, htrue⟩ := pickJmin_ok hpick
  refine ⟨fun h => by rw [hj, hfalse h], fun h => ?_, by rw [hj, hd]; exact hget⟩
  obtain ⟨-, hargmin⟩ := htrue h
  obtain ⟨dval, rfl⟩ := Option.ne_none_iff_exists'.1 hne
  obtain ⟨fm, hfm⟩ := normalizeLastRow_exists_map sp.hint lm0.length lastRow
  have hkval : (normalizeLastRow sp.hint lm0.length lastRow)[jmin]? =
      some (some (fm jmin dval)) := by
    rw [hfm jmin, hget]
    rfl
  obtain ⟨hall, hmin⟩ := npArgmin_min hargmin hkval
  exact ⟨hall, ⟨fm jmin dval, by rw [hj]; exact hkval,
    fun j w hjw => hmin j w hjw⟩⟩

/-- Witness for C5: the open-end `asymmetric` run on `[[1,2],[3,1]]`, whose
terminal column is the argmin of the normalized last row and whose distance
is the raw cost there. -/
theorem C5_witness :
    [some (4 : ℚ), some 2][run22oe.jmin]? = some run22oe.distance :=
  (@C5_terminal_column (.two [[1, 2], [3, 1]]) none (fun _ _ => 0) asymmetric .none {}
    false false true false run22oe [[1, 2], [3, 1]] [[1, 2], [3, 1]] none none noWindow
    none [some 4, some 2] (by with_unfolding_all rfl) rfl rfl rfl
    (by with_unfolding_all rfl)).2.2

/-- A successful `dtwCore` run carries cost and direction matrices. -/
theorem dtwCore_ok_matrices {lm0 : List (List ℚ)} {sp : StepPattern} {wfun : WFun}
    {wargs : WindowArgs} {d oe ob : Bool} {o' : DTW} {lmF : List (List ℚ)}
    (hc : dtwCore lm0 sp wfun wargs d oe ob = .ok (o', lmF)) :
    o'.costMatrix.isSome ∧ o'.directionMatrix.isSome := by
  unfold dtwCore at hc
  cases hob : obSetup ob sp.hint lm0 ((lm0.headD []).length) <;> simp only [hob] at hc
  · exact absurd hc (by simp)
  case ok lmPrec =>
    cases hpost : postGcm sp lm0.length ((lm0.headD []).length) oe
        (_globalCostMatrix lmPrec.1 sp wfun lmPrec.2 wargs) <;> simp only [hpost] at hc
    · exact absurd hc (by simp)
    case ok jdn =>
      cases ob
      · rw [obStrip_false] at hc
        simp only [Except.ok.injEq, Prod.mk.injEq] at hc
        obtain ⟨rfl, rfl⟩ := hc
        rw [addBacktrack_costMatrix, addBacktrack_directionMatrix]
        exact ⟨rfl, rfl⟩
      · obtain ⟨i1, i1s, i2, i2s, -, -, -, -, -, -, -, -, hcm, hdm, -⟩ :=
          obStrip_true_spec hc
        rw [hcm, hdm, addBacktrack_costMatrix, addBacktrack_directionMatrix]
        exact ⟨rfl, rfl⟩

/-- **C8**: with `keep_internals = false` the result has no cost or
direction matrix while distance, normalizedDistance, the index sequences,
`N`, `M` and `jmin` are exactly those of the `keep_internals = true` run;
with `keep_internals = true` the result retains the cost, direction and
local-cost matrices, plus the coerced query and reference when `y` was
supplied. -/
theorem C8_keep_internals (x : NDArr) (y : Option NDArr) (f : List ℚ → List ℚ → ℚ)
    (sp : StepPattern) (wt : WindowType) (wargs : WindowArgs) (d oe ob : Bool) :
    (∀ a : DTW, dtw x y f sp wt wargs false d oe ob = .ok a →
      a.costMatrix = none ∧ a.directionMatrix = none) ∧
    (∀ a b : DTW, dtw x y f sp wt wargs false d oe ob = .ok a →
      dtw x y f sp wt wargs true d oe ob = .ok b →
      a.distance = b.distance ∧ a.normalizedDistance = b.normalizedDistance ∧
      a.index1 = b.index1 ∧ a.index2 = b.index2 ∧ a.index1s = b.index1s ∧
      a.index2s = b.index2s ∧ a.N = b.N ∧ a.M = b.M ∧ a.jmin = b.jmin) ∧
    (∀ b : DTW, dtw x y f sp wt wargs true d oe ob = .ok b →
      b.costMatrix.isSome ∧ b.directionMatrix.isSome ∧ b.localCostMatrix.isSome ∧
      (y.isSome = true → b.query.isSome ∧ b.reference.isSome)) := by
  refine ⟨?_, ?_, ?_⟩
  · intro a ha
    unfold dtw at ha
    cases hres : resolveInput x y f <;> simp only [hres] at ha
    · exact absurd ha (by simp)
    case ok lqr =>
      cases hw : _canonicalizeWindowFunction wt <;> simp only [hw] at ha
      · exact absurd ha (by simp)
      case ok wfun =>
        cases hc : dtwCore lqr.1 sp wfun wargs d oe ob <;> simp only [hc] at ha
        · exact absurd ha (by simp)
        case ok olm =>
          cases ha
          unfold finalizeInternals
          rw [if_neg (by simp)]
          exact ⟨rfl, rfl⟩
  · intro a b ha hb
    unfold dtw at ha hb
    cases hres : resolveInput x y f <;> simp only [hres] at ha hb
    · exact absurd ha (by simp)
    case ok lqr =>
      cases hw : _canonicalizeWindowFunction wt <;> simp only [hw] at ha hb
      · exact absurd ha (by simp)
      case ok wfun =>
        cases hc : dtwCore lqr.1 sp wfun wargs d oe ob <;> simp only [hc] at ha hb
        · exact absurd ha (by simp)
        case ok olm =>
          cases ha
          cases hb
          unfold finalizeInternals
          rw [if_neg (by simp), if_pos rfl]
          exact ⟨rfl, rfl, rfl, rfl, rfl, rfl, rfl, rfl, rfl⟩
  · intro b hb
    unfold dtw at hb
    cases hres : resolveInput x y f <;> simp only [hres] at hb
    · exact absurd hb (by simp)
    case ok lqr =>
      cases hw : _canonicalizeWindowFunction wt <;> simp only [hw] at hb
      · exact absurd hb (by simp)
      case ok wfun =>
        cases hc : dtwCore lqr.1 sp wfun wargs d oe ob <;> simp only [hc] at hb
        · exact absurd hb (by simp)
        case ok olm =>
          cases hb
          obtain ⟨olm1, olm2⟩ := olm
          obtain ⟨hcm, hdm⟩ := dtwCore_ok_matrices hc
          unfold finalizeInternals
          rw [if_pos rfl]
          refine ⟨hcm, hdm, rfl, fun hy => ?_⟩
          cases y with
          | none => exact absurd hy (by simp)
          | some yv =>
            simp only [resolveInput, Except.ok.injEq] at hres
            constructor
            · rw [show lqr.2.1 = some (coerceSeries x) by rw [← hres]]
              rfl
            · rw [show lqr.2.2 = some (coerceSeries yv) by rw [← hres]]
              rfl

/-- Witness for C8: the `y`-supplied pair run with both `keep_internals`
values. -/
theorem C8_witness :
    (runYF.costMatrix = none ∧ runYF.directionMatrix = none) ∧
    (runYF.distance = runYT.distance ∧
      runYF.normalizedDistance = runYT.normalizedDistance ∧
      runYF.index1 = runYT.index1 ∧ runYF.index2 = runYT.index2 ∧
      runYF.index1s = runYT.index1s ∧ runYF.index2s = runYT.index2s ∧
      runYF.N = runYT.N ∧ runYF.M = runYT.M ∧ runYF.jmin = runYT.jmin) ∧
    (runYT.costMatrix.isSome ∧ runYT.directionMatrix.isSome ∧
      runYT.localCostMatrix.isSome ∧
      ((some (NDArr.one [3])).isSome = true → runYT.query.isSome ∧ runYT.reference.isSome)) :=
  ⟨(C8_keep_internals (.two [[1], [2]]) (some (.one [3])) (fun _ _ => 1) symmetric2
      .none {} false false false).1 runYF (by with_unfolding_all rfl),
   (C8_keep_internals (.two [[1], [2]]) (some (.one [3])) (fun _ _ => 1) symmetric2
      .none {} false false false).2.1 runYF runYT (by with_unfolding_all rfl)
      (by with_unfolding_all rfl),
   (C8_keep_internals (.two [[1], [2]]) (some (.one [3])) (fun _ _ => 1) symmetric2
      .none {} false false false).2.2 runYT (by with_unfolding_all rfl)⟩

/-! ## Engine invariants (for the open-begin claim) -/

/-- A property preserved by every step of a fold holds of the fold. -/
theorem foldl_inv {σ α : Type _} {P : σ → Prop} (f : σ → α → σ)
    (hstep : ∀ s c, P s → P (f s c)) :
    ∀ (l : List α) (s : σ), P s → P (l.foldl f s) := by
  intro l
  induction l with
  | nil => exact fun s h => h
  | cons c rest ih => exact fun s h => ih _ (hstep s c h)

theorem chooseMin_fold_mem :
    ∀ (cands : List (ℕ × ℚ)) (acc : Option (ℕ × ℚ)) (pc : ℕ × ℚ),
      cands.foldl (fun best c =>
        match best with
        | none => some c
        | some b => if c.2 < b.2 then some c else some b) acc = some pc →
      pc ∈ cands ∨ acc = some pc := by
  intro cands
  induction cands with
  | nil => exact fun acc pc h => .inr h
  | cons c rest ih =>
    intro acc pc h
    rcases ih _ pc h with hm | hacc
    · exact .inl (List.mem_cons_of_mem _ hm)
    · cases acc with
      | none =>
        simp only [Option.some.injEq] at hacc
        exact .inl (hacc ▸ List.mem_cons_self c rest)
      | some b =>
        dsimp only at hacc
        by_cases hlt : c.2 < b.2
        · rw [if_pos hlt] at hacc
          simp only [Option.some.injEq] at hacc
          exact .inl (hacc ▸ List.mem_cons_self c rest)
        · rw [if_neg hlt] at hacc
          exact .inr hacc

/-- The chosen minimum is one of the candidates. -/
theorem chooseMin_mem {cands : List (ℕ × ℚ)} {pc : ℕ × ℚ}
    (h : chooseMin cands = some pc) : pc ∈ cands := by
  rcases chooseMin_fold_mem cands none pc h with hm | hacc
  · exact hm
  · exact absurd hacc (by simp)

/-- A defined candidate cost implies the predecessor offsets fit. -/
theorem candidateCost_le {lm : List (List ℚ)} {cm : CMf} {pat : SPat} {i j : ℕ} {c : ℚ}
    (h : candidateCost lm cm pat i j = some c) : pat.pdr ≤ i ∧ pat.pdc ≤ j := by
  by_cases hb : pat.pdr ≤ i ∧ pat.pdc ≤ j
  · exact hb
  · unfold candidateCost at h
    rw [if_neg hb] at h
    exact absurd h (by simp)

/-- One engine step preserves the invariant: the seeded first row stays
settled, and every direction entry names an in-range pattern-id whose
predecessor offsets fit inside a cell strictly below the first row. -/
theorem engineStep_inv {lm : List (List ℚ)} {sp : StepPattern} {wfun : WFun}
    {wargs : WindowArgs} {n m : ℕ} {st : EngineState} {ij : ℕ × ℕ}
    (h0 : ∀ j, (st.cm 0 j).isSome)
    (hdm : ∀ i j s, st.dm i j = some s → 1 ≤ i ∧
      ∃ pat, sp.pats[s]? = some pat ∧ pat.pdr ≤ i ∧ pat.pdc ≤ j) :
    (∀ j, ((engineStep lm sp wfun wargs n m st ij).cm 0 j).isSome) ∧
    (∀ i j s, (engineStep lm sp wfun wargs n m st ij).dm i j = some s → 1 ≤ i ∧
      ∃ pat, sp.pats[s]? = some pat ∧ pat.pdr ≤ i ∧ pat.pdc ≤ j) := by
  simp only [engineStep]
  by_cases hset : (st.cm ij.1 ij.2).isSome
  · rw [if_pos hset]
    exact ⟨h0, hdm⟩
  · rw [if_neg hset]
    by_cases hwin : wfun ij.1 ij.2 n m wargs = true
    · rw [if_neg (by simp [hwin])]
      cases hch : chooseMin (List.filterMap
          (fun pc => Option.map (fun c => (pc.1, c)) (candidateCost lm st.cm pc.2 ij.1 ij.2))
          sp.pats.enum) with
      | none => exact ⟨h0, hdm⟩
      | some pc =>
        have hi1 : 1 ≤ ij.1 := by
          rcases Nat.eq_zero_or_pos ij.1 with hz | hp
          · exact absurd (hz ▸ h0 ij.2) hset
          · exact hp
        obtain ⟨ppat, hmem, hmap⟩ := List.mem_filterMap.1 (chooseMin_mem hch)
        obtain ⟨c, hcand, hpc⟩ := Option.map_eq_some'.1 hmap
        have hpats : sp.pats[ppat.1]? = some ppat.2 := by
          obtain ⟨p, pat⟩ := ppat
          exact List.mk_mem_enum_iff_getElem?.1 hmem
        obtain ⟨hpdr, hpdc⟩ := candidateCost_le hcand
        constructor
        · intro j
          show ((if 0 = ij.1 ∧ j = ij.2 then some pc.2 else st.cm 0 j)).isSome
          by_cases he : 0 = ij.1 ∧ j = ij.2
          · rw [if_pos he]; rfl
          · rw [if_neg he]; exact h0 j
        · intro i j s hs
          have hs' : (if i = ij.1 ∧ j = ij.2 then some pc.1 else st.dm i j) = some s := hs
          by_cases he : i = ij.1 ∧ j = ij.2
          · rw [if_pos he] at hs'
            simp only [Option.some.injEq] at hs'
            refine ⟨he.1 ▸ hi1, ppat.2, ?_, he.1 ▸ hpdr, he.2 ▸ hpdc⟩
            rw [← hs', ← hpc]
            exact hpats
          · rw [if_neg he] at hs'
            exact hdm i j s hs'
    · rw [if_pos (by simp [hwin])]
      exact ⟨h0, hdm⟩

/-- Reading back a sampled function matrix. -/
theorem dmGet_sample {f : DMf} {n m i j s : ℕ}
    (h : dmGet ((List.range n).map (fun i => (List.range m).map (fun j => f i j))) i j =
      some s) : f i j = some s := by
  unfold dmGet at h
  by_cases hi : i < n
  · rw [List.getElem?_map, List.getElem?_range hi] at h
    have h2 : ((((List.range m).map (fun j' => f i j'))[j]?).join : Option ℕ) = some s := h
    by_cases hj : j < m
    · rw [List.getElem?_map, List.getElem?_range hj] at h2
      exact h2
    · rw [List.getElem?_map,
        List.getElem?_eq_none (by simpa using Nat.le_of_not_lt hj)] at h2
      exact absurd h2 (by simp)
  · rw [List.getElem?_map, List.getElem?_eq_none (by simpa using Nat.le_of_not_lt hi)] at h
    exact absurd h (by simp)

/-- The direction matrix produced by the engine under an everywhere-settled
first-row seed: every direction entry lies strictly below the first row and
names an in-range pattern-id fitting at its cell. -/
theorem globalCostMatrix_dm_inv {lm : List (List ℚ)} {sp : StepPattern} {wfun : WFun}
    {wargs : WindowArgs} {sf : CMf} (h0 : ∀ j, (sf 0 j).isSome) :
    ∀ i j s, dmGet (_globalCostMatrix lm sp wfun (some sf) wargs).directionMatrix i j =
        some s →
      1 ≤ i ∧ ∃ pat, sp.pats[s]? = some pat ∧ pat.pdr ≤ i ∧ pat.pdc ≤ j := by
  intro i j s hs
  have hfold := foldl_inv (σ := EngineState)
    (P := fun st => (∀ j, (st.cm 0 j).isSome) ∧
      (∀ i j s, st.dm i j = some s → 1 ≤ i ∧
        ∃ pat, sp.pats[s]? = some pat ∧ pat.pdr ≤ i ∧ pat.pdc ≤ j))
    (engineStep lm sp wfun wargs lm.length ((lm.headD []).length))
    (fun st c hst => engineStep_inv hst.1 hst.2)
    ((List.range lm.length).flatMap
      (fun i => (List.range ((lm.headD []).length)).map (fun j => (i, j))))
    ⟨sf, fun _ _ => none⟩
    ⟨h0, fun _ _ _ h => absurd h (by simp)⟩
  exact hfold.2 i j s (dmGet_sample hs)

/-- One-step unfolding of the backtracking loop. -/
theorem btLoop_succ (sp : StepPattern) (dm : List (List (Option ℕ)))
    (fuel i j : ℕ) (ii jj iis jjs : List ℕ) :
    btLoop sp dm (fuel + 1) i j ii jj iis jjs =
      if i = 0 ∧ j = 0 then ⟨ii.reverse, jj.reverse, iis.reverse, jjs.reverse⟩
      else
        match dmGet dm i j with
        | none => ⟨ii.reverse, jj.reverse, iis.reverse, jjs.reverse⟩
        | some s =>
          match sp.pats[s]? with
          | none => ⟨ii.reverse, jj.reverse, iis.reverse, jjs.reverse⟩
          | some pat =>
            btLoop sp dm fuel (i - pat.pdr) (j - pat.pdc)
              (ii ++ [i - pat.pdr]) (jj ++ [j - pat.pdc])
              (iis ++ (btSteps pat).map (fun o => i - o.1))
              (jjs ++ (btSteps pat).map (fun o => j - o.2)) := rfl

/-- The backtracking loop under the direction-matrix invariant: every entry
of the reconstructed query-index accumulators other than the
chronologically-first one (the stopping cell) lies strictly below row 0. -/
theorem btLoop_ge_one {sp : StepPattern} {dm : List (List (Option ℕ))}
    (hwf : sp.WF)
    (hdm : ∀ i j s, dmGet dm i j = some s → 1 ≤ i ∧
      ∃ pat, sp.pats[s]? = some pat ∧ pat.pdr ≤ i ∧ pat.pdc ≤ j) :
    ∀ (fuel i j : ℕ) (ii jj iis jjs : List ℕ),
      ii ≠ [] → ii.getLast? = some i → (∀ v ∈ ii.dropLast, 1 ≤ v) →
      iis ≠ [] → iis.getLast? = some i → (∀ v ∈ iis.dropLast, 1 ≤ v) →
      (∀ v ∈ (btLoop sp dm fuel i j ii jj iis jjs).index1.drop 1, 1 ≤ v) ∧
      (∀ v ∈ (btLoop sp dm fuel i j ii jj iis jjs).index1s.drop 1, 1 ≤ v) := by
  intro fuel
  induction fuel with
  | zero =>
    intro i j ii jj iis jjs hne hlast hdrop hne2 hlast2 hdrop2
    constructor
    · intro v hv
      rw [show (btLoop sp dm 0 i j ii jj iis jjs).index1 = ii.reverse from rfl,
        List.drop_one, List.tail_reverse] at hv
      exact hdrop v (List.mem_reverse.1 hv)
    · intro v hv
      rw [show (btLoop sp dm 0 i j ii jj iis jjs).index1s = iis.reverse from rfl,
        List.drop_one, List.tail_reverse] at hv
      exact hdrop2 v (List.mem_reverse.1 hv)
  | succ fuel ih =>
    intro i j ii jj iis jjs hne hlast hdrop hne2 hlast2 hdrop2
    have hexit1 : ∀ v ∈ (ii.reverse.drop 1), 1 ≤ v := by
      intro v hv
      rw [List.drop_one, List.tail_reverse] at hv
      exact hdrop v (List.mem_reverse.1 hv)
    have hexit2 : ∀ v ∈ (iis.reverse.drop 1), 1 ≤ v := by
      intro v hv
      rw [List.drop_one, List.tail_reverse] at hv
      exact hdrop2 v (List.mem_reverse.1 hv)
    rw [btLoop_succ]
    by_cases hij : i = 0 ∧ j = 0
    · rw [if_pos hij]
      exact ⟨hexit1, hexit2⟩
    · rw [if_neg hij]
      cases hd : dmGet dm i j with
      | none => exact ⟨hexit1, hexit2⟩
      | some s =>
        dsimp only
        cases hp : sp.pats[s]? with
        | none => exact ⟨hexit1, hexit2⟩
        | some pat =>
          dsimp only
          obtain ⟨hi1, pat', hp', hpdr, hpdc⟩ := hdm i j s hd
          simp only [hp, Option.some.injEq] at hp'
          subst hp'
          have hlastval : ii.getLast hne = i := by
            have hq := List.getLast?_eq_getLast ii hne
            rw [hlast] at hq
            exact Option.some.inj hq.symm
          have hii_all : ∀ v ∈ ii, 1 ≤ v := by
            intro v hv
            rw [← List.dropLast_concat_getLast hne] at hv
            rcases List.mem_append.1 hv with h1 | h2
            · exact hdrop v h1
            · have hv2 : v = ii.getLast hne := by simpa using h2
              rw [hv2, hlastval]
              exact hi1
          have hlastval2 : iis.getLast hne2 = i := by
            have hq := List.getLast?_eq_getLast iis hne2
            rw [hlast2] at hq
            exact Option.some.inj hq.symm
          have hiis_all : ∀ v ∈ iis, 1 ≤ v := by
            intro v hv
            rw [← List.dropLast_concat_getLast hne2] at hv
            rcases List.mem_append.1 hv with h1 | h2
            · exact hdrop2 v h1
            · have hv2 : v = iis.getLast hne2 := by simpa using h2
              rw [hv2, hlastval2]
              exact hi1
          have hsteps : (btSteps pat).map (fun o => i - o.1) =
              (((pat.terms.filter (fun t => ¬(t.dr = 0 ∧ t.dc = 0))).reverse.map
                (fun t => (t.dr, t.dc))).map (fun o => i - o.1)) ++ [i - pat.pdr] := by
            rw [btSteps, List.map_append]
            rfl
          have hApart : ∀ v ∈ ((pat.terms.filter
              (fun t => ¬(t.dr = 0 ∧ t.dc = 0))).reverse.map
                (fun t => (t.dr, t.dc))).map (fun o => i - o.1), 1 ≤ v := by
            intro v hv
            simp only [List.mem_map, List.mem_reverse, List.mem_filter,
              decide_eq_true_eq] at hv
            obtain ⟨o, ⟨t, ⟨ht, hnn⟩, ho⟩, hveq⟩ := hv
            have hpat_mem : pat ∈ sp.pats := List.mem_iff_getElem?.2 ⟨s, hp⟩
            obtain ⟨-, hterm⟩ := hwf pat hpat_mem
            obtain ⟨hdr, -, hcase⟩ := hterm t ht hnn
            rw [← hveq, ← ho]
            rcases hcase with h0 | hlt
            · simp only
              omega
            · simp only
              omega
          refine ih (i - pat.pdr) (j - pat.pdc) _ _ _ _ ?_ (List.getLast?_concat _) ?_
            ?_ ?_ ?_
          · simp
          · rw [List.dropLast_concat]
            exact hii_all
          · rw [hsteps]
            simp
          · rw [hsteps, ← List.append_assoc]
            exact List.getLast?_concat _
          · rw [hsteps, ← List.append_assoc, List.dropLast_concat]
            intro v hv
            rcases List.mem_append.1 hv with h1 | h2
            · exact hiis_all v h1
            · exact hApart v h2

/-- Under the direction-matrix invariant, every entry of `index1` and
`index1s` except the chronologically first one is at least 1. -/
theorem backtrack_nonneg {sp : StepPattern} {dm : List (List (Option ℕ))}
    (hwf : sp.WF)
    (hdm : ∀ i j s, dmGet dm i j = some s → 1 ≤ i ∧
      ∃ pat, sp.pats[s]? = some pat ∧ pat.pdr ≤ i ∧ pat.pdc ≤ j)
    (jmin : ℕ) :
    (∀ v ∈ (_backtrack sp dm jmin).index1.drop 1, 1 ≤ v) ∧
    (∀ v ∈ (_backtrack sp dm jmin).index1s.drop 1, 1 ≤ v) := by
  unfold _backtrack
  exact btLoop_ge_one hwf hdm (dm.length - 1 + jmin + 1) (dm.length - 1) jmin
    [dm.length - 1] [jmin] [dm.length - 1] [jmin]
    (by simp) rfl (by simp) (by simp) rfl (by simp)

/-- **C7**: for a successful open-begin call with backtracking performed,
the synthetic leading row is stripped: the returned `index1`/`index1s` are
the backtracker's sequences over the padded matrix with the first entry
dropped and the rest shifted down by one, all their entries are ≥ 0 (no
entry refers to the synthetic row, which would be -1 after the shift),
`index2`/`index2s` only lose their first entry, and — when internals are
kept — the cost, direction and local-cost matrices have the synthetic first
row removed. -/
theorem C7_open_begin_strip {x : NDArr} {y : Option NDArr} {f : List ℚ → List ℚ → ℚ}
    {sp : StepPattern} {wt : WindowType} {wargs : WindowArgs} {k oe : Bool}
    {a : DTW} {lm0 : List (List ℚ)} {qx ry : Option (List (List ℚ))} {wfun : WFun}
    {g : GCMOut} {bt : BTOut}
    (ha : dtw x y f sp wt wargs k false oe true = .ok a)
    (hres : resolveInput x y f = .ok (lm0, qx, ry))
    (hw : _canonicalizeWindowFunction wt = .ok wfun)
    (hwf : sp.WF)
    (hg : g = _globalCostMatrix (List.replicate ((lm0.headD []).length) 0 :: lm0) sp wfun
      (some obSeed) wargs)
    (hbt : bt = _backtrack sp g.directionMatrix a.jmin) :
    (a.index1 = some (((bt.index1.map Int.ofNat).drop 1).map (fun v => v - 1)) ∧
      a.index1s = some (((bt.index1s.map Int.ofNat).drop 1).map (fun v => v - 1)) ∧
      a.index2 = some ((bt.index2.map Int.ofNat).drop 1) ∧
      a.index2s = some ((bt.index2s.map Int.ofNat).drop 1)) ∧
    (∀ l, a.index1 = some l → ∀ v ∈ l, 0 ≤ v) ∧
    (∀ l, a.index1s = some l → ∀ v ∈ l, 0 ≤ v) ∧
    (k = true → a.costMatrix = some (g.costMatrix.drop 1) ∧
      a.directionMatrix = some (g.directionMatrix.drop 1) ∧
      a.localCostMatrix = some lm0) := by
  unfold dtw at ha
  rw [hres, hw] at ha
  simp only at ha
  cases hc : dtwCore lm0 sp wfun wargs false oe true <;> simp only [hc] at ha
  · exact absurd ha (by simp)
  case ok olm =>
    obtain ⟨o', lmF⟩ := olm
    have haa : a = finalizeInternals k y.isSome qx ry lmF o' := (Except.ok.inj ha).symm
    by_cases hn : sp.hint = "N"
    case neg =>
      have hob : obSetup true sp.hint lm0 ((lm0.headD []).length) =
          .error (.configError
            "Open-begin requires step patterns with N normalization (e.g. asymmetric, or R-J types (c)). See Tormene et al.") := by
        unfold obSetup
        rw [if_pos rfl, if_pos hn]
      simp only [dtwCore, hob] at hc
      exact absurd hc (by simp)
    case pos =>
      have hob : obSetup true sp.hint lm0 ((lm0.headD []).length) =
          .ok (List.replicate ((lm0.headD []).length) 0 :: lm0, some obSeed) := by
        unfold obSetup
        rw [if_pos rfl, if_neg (by simp [hn])]
      simp only [dtwCore, hob] at hc
      cases hpost : postGcm sp lm0.length ((lm0.headD []).length) oe
          (_globalCostMatrix (List.replicate ((lm0.headD []).length) 0 :: lm0) sp wfun
            (some obSeed) wargs) <;> simp only [hpost] at hc
      · exact absurd hc (by simp)
      case ok jdn =>
        rw [← hg] at hc
        obtain ⟨i1, i1s, i2, i2s, ho1, ho1s, ho2, ho2s, hn1, hn1s, hn2, hn2s, hocm,
          hodm, hlmF⟩ := obStrip_true_spec hc
        obtain ⟨fd, fn, fj, fN, fM, f1, f2, f1s, f2s⟩ :=
          finalizeInternals_fields k y.isSome qx ry lmF o'
        obtain ⟨sd, sn, sj, sN, sM⟩ := obStrip_ok_fields hc
        have hjmin : a.jmin = jdn.1 := by
          rw [haa, fj, sj, addBacktrack_jmin]
          rfl
        have hbt' : bt = _backtrack sp g.directionMatrix jdn.1 := by
          rw [hbt, hjmin]
        have hi1v : i1 = (_backtrack sp g.directionMatrix jdn.1).index1.map Int.ofNat := by
          have hov : (addBacktrack sp g false
              (mkBase g lm0.length ((lm0.headD []).length) oe true jdn.1 jdn.2.1
                jdn.2.2)).index1 =
              some ((_backtrack sp g.directionMatrix jdn.1).index1.map Int.ofNat) := rfl
          rw [hov] at ho1
          exact (Option.some.inj ho1).symm
        have hi1sv : i1s =
            (_backtrack sp g.directionMatrix jdn.1).index1s.map Int.ofNat := by
          have hov : (addBacktrack sp g false
              (mkBase g lm0.length ((lm0.headD []).length) oe true jdn.1 jdn.2.1
                jdn.2.2)).index1s =
              some ((_backtrack sp g.directionMatrix jdn.1).index1s.map Int.ofNat) := rfl
          rw [hov] at ho1s
          exact (Option.some.inj ho1s).symm
        have hi2v : i2 = (_backtrack sp g.directionMatrix jdn.1).index2.map Int.ofNat := by
          have hov : (addBacktrack sp g false
              (mkBase g lm0.length ((lm0.headD []).length) oe true jdn.1 jdn.2.1
                jdn.2.2)).index2 =
              some ((_backtrack sp g.directionMatrix jdn.1).index2.map Int.ofNat) := rfl
          rw [hov] at ho2
          exact (Option.some.inj ho2).symm
        have hi2sv : i2s =
            (_backtrack sp g.directionMatrix jdn.1).index2s.map Int.ofNat := by
          have hov : (addBacktrack sp g false
              (mkBase g lm0.length ((lm0.headD []).length) oe true jdn.1 jdn.2.1
                jdn.2.2)).index2s =
              some ((_backtrack sp g.directionMatrix jdn.1).index2s.map Int.ofNat) := rfl
          rw [hov] at ho2s
          exact (Option.some.inj ho2s).symm
        have hdminv : ∀ i j s, dmGet g.directionMatrix i j = some s → 1 ≤ i ∧
            ∃ pat, sp.pats[s]? = some pat ∧ pat.pdr ≤ i ∧ pat.pdc ≤ j := by
          rw [hg]
          exact globalCostMatrix_dm_inv (fun _ => rfl)
        obtain ⟨hbt1, hbt1s⟩ := backtrack_nonneg hwf hdminv jdn.1
        have ha1 : a.index1 =
            some (((bt.index1.map Int.ofNat).drop 1).map (fun v => v - 1)) := by
          rw [haa, f1, hn1, hi1v, hbt']
        have ha1s : a.index1s =
            some (((bt.index1s.map Int.ofNat).drop 1).map (fun v => v - 1)) := by
          rw [haa, f1s, hn1s, hi1sv, hbt']
        refine ⟨⟨ha1, ha1s, by rw [haa, f2, hn2, hi2v, hbt'],
          by rw [haa, f2s, hn2s, hi2sv, hbt']⟩, ?_, ?_, ?_⟩
        · intro l hl v hv
          rw [ha1] at hl
          rw [Option.some.inj hl.symm] at hv
          rw [← List.map_drop] at hv
          obtain ⟨w, hw1, hw2⟩ := List.mem_map.1 hv
          obtain ⟨u, hu1, hu2⟩ := List.mem_map.1 hw1
          have hu : 1 ≤ u := by
            rw [hbt'] at hu1
            exact hbt1 u hu1
          rw [← hw2, ← hu2, Int.ofNat_eq_natCast]
          omega
        · intro l hl v hv
          rw [ha1s] at hl
          rw [Option.some.inj hl.symm] at hv
          rw [← List.map_drop] at hv
          obtain ⟨w, hw1, hw2⟩ := List.mem_map.1 hv
          obtain ⟨u, hu1, hu2⟩ := List.mem_map.1 hw1
          have hu : 1 ≤ u := by
            rw [hbt'] at hu1
            exact hbt1s u hu1
          rw [← hw2, ← hu2, Int.ofNat_eq_natCast]
          omega
        · intro hk
          subst hk
          have hfc : (finalizeInternals true y.isSome qx ry lmF o').costMatrix =
              o'.costMatrix := by
            unfold finalizeInternals
            rw [if_pos rfl]
          have hfd : (finalizeInternals true y.isSome qx ry lmF o').directionMatrix =
              o'.directionMatrix := by
            unfold finalizeInternals
            rw [if_pos rfl]
          have hfl : (finalizeInternals true y.isSome qx ry lmF o').localCostMatrix =
              some lmF := by
            unfold finalizeInternals
            rw [if_pos rfl]
          refine ⟨?_, ?_, ?_⟩
          · rw [haa, hfc, hocm, addBacktrack_costMatrix]
            rfl
          · rw [haa, hfd, hodm, addBacktrack_directionMatrix]
            rfl
          · rw [haa, hfl, hlmF]
            rfl

/-- Witness for C7: the open-begin `asymmetric` run on `[[1,2],[3,1]]` with
internals kept — the padded-matrix backtrack gives `index1 = [0,1,2]`,
whose strip is `[0,1]`, and the retained matrices lose the first row. -/
theorem C7_witness :
    runOB.index1 = some [0, 1] ∧ runOB.index1s = some [0, 1] ∧
    runOB.costMatrix = some [[some 1, some 2], [some 4, some 2]] ∧
    runOB.localCostMatrix = some [[1, 2], [3, 1]] ∧
    (0 : ℤ) ≤ 0 ∧ (0 : ℤ) ≤ 1 := by
  have h := @C7_open_begin_strip (.two [[1, 2], [3, 1]]) none (fun _ _ => 0) asymmetric
    .none {} true false runOB [[1, 2], [3, 1]] none none noWindow
    ⟨[[some 0, some 0], [some 1, some 2], [some 4, some 2]],
      [[none, none], [some 0, some 0], [some 0, some 1]]⟩
    ⟨[0, 1, 2], [0, 0, 1], [0, 1, 2], [0, 0, 1]⟩
    (by with_unfolding_all rfl) rfl rfl (by decide) (by with_unfolding_all rfl)
    (by with_unfolding_all rfl)
  refine ⟨h.1.1.trans rfl, h.1.2.1.trans rfl, (h.2.2.2 rfl).1.trans rfl,
    (h.2.2.2 rfl).2.2, ?_, ?_⟩
  · exact h.2.1 [0, 1] (h.1.1.trans rfl) 0 (by simp)
  · exact h.2.1 [0, 1] (h.1.1.trans rfl) 1 (by simp)
